import Mathlib

/-!
# Verification of the `PortfolioOptimizer` core (src/portfolio_optimizer.py)

Shallow embedding of the portfolio allocation optimizer and growth-projection
engine.  Python floats are modelled by `ℝ` (exact real semantics of the
floating-point formulas); a pandas `DataFrame` of returns is modelled by its
column labels together with its rows of real entries; Python dicts mapping
tickers to weights are modelled by association lists `List (String × ℝ)`
(`dict(zip(columns, w))` becomes `cols.zip (List.ofFn w)`), and
`d.get(k, 0)` becomes `(l.lookup k).getD 0`.

Two operations of the source have no executable counterpart inside the model
and are therefore passed as explicitly-constrained parameters:

* `np.linalg.pinv(cov)` (in `minimum_variance`): the unique Moore–Penrose
  pseudo-inverse.  The embedding takes the matrix `P` as an argument and the
  theorems carry the defining Penrose equations (`IsMoorePenrose`) — or, where
  invertibility is at stake, the two-sided-inverse equations — as hypotheses,
  which pin `P` down to exactly `np.linalg.pinv(cov)`.
* `np.random.random(n)` (in `maximum_sharpe`): the function is modelled as a
  deterministic function of the list of random draws it consumes.

Division by zero: Lean's `x / 0 = 0` convention stands in for the IEEE
`nan`/`inf` results of the source at the (explicitly flagged) degenerate
inputs; at every input where a theorem below asserts something, the two
semantics agree unless the theorem's comment says otherwise.  The one place
where the IEEE values drive control flow — the `sharpe > best_sharpe`
comparison of `maximum_sharpe`, whose `best_sharpe` starts at `-np.inf` —
is modelled explicitly: a draw's score is an `Option EReal` (`⊥`/`⊤` for
`-inf`/`+inf` on zero volatility, `none` for the NaN of `0/0`), so the
source's path in which `best_weights` remains `None` and
`dict(zip(columns, None))` raises `TypeError` is the `none` result of
`maximum_sharpe`.
-/

namespace DecisionEngine

noncomputable section

/-- A returns `DataFrame`: column labels (tickers) and chronological rows of
fractional returns.  Mirrors `returns_df` (columns = tickers, index = dates);
rows are aligned (NaN-free after the upstream `dropna`). -/
structure ReturnsDf where
  cols : List String
  rows : List (List ℝ)

namespace ReturnsDf

/-- Number of assets (`len(returns_df.columns)`). -/
abbrev n (df : ReturnsDf) : ℕ := df.cols.length

/-- Number of return periods (`len(returns_df)`). -/
abbrev T (df : ReturnsDf) : ℕ := df.rows.length

/-- Entry of row `t`, column `i` (0 outside the frame, which no theorem uses). -/
def entry (df : ReturnsDf) (t i : ℕ) : ℝ := (df.rows.getD t []).getD i 0

/-- The column of asset `i` as a list (one entry per period). -/
def colList (df : ReturnsDf) (i : ℕ) : List ℝ := df.rows.map (fun r => r.getD i 0)

/-- Column mean, `returns_df.mean()` for one column. -/
def colMean (df : ReturnsDf) (i : ℕ) : ℝ := (df.colList i).sum / (df.T : ℝ)

/-- Sample covariance of columns `i` and `j`, `returns_df.cov()` for one pair
(pandas default `ddof = 1`). -/
def sampleCov (df : ReturnsDf) (i j : ℕ) : ℝ :=
  (∑ t in Finset.range df.T,
    (df.entry t i - df.colMean i) * (df.entry t j - df.colMean j)) / ((df.T : ℝ) - 1)

/-- Annualized covariance entry: `self.cov_matrix = returns_df.cov() * 252`. -/
def covA (df : ReturnsDf) (i j : ℕ) : ℝ := 252 * df.sampleCov i j

/-- Annualized mean return: `self.mean_returns = returns_df.mean() * 252`. -/
def meanA (df : ReturnsDf) (i : ℕ) : ℝ := 252 * df.colMean i

/-- The annualized covariance matrix `self.cov_matrix`. -/
def covMatrix (df : ReturnsDf) : Matrix (Fin df.n) (Fin df.n) ℝ :=
  Matrix.of fun i j => df.covA i j

/-- The annualized mean-return vector `self.mean_returns`. -/
def meanVec (df : ReturnsDf) : Fin df.n → ℝ := fun i => df.meanA i

end ReturnsDf

open ReturnsDf Matrix

/-- The optimizer instance: `PortfolioOptimizer(returns_df, risk_free_rate)`
(`risk_free_rate` defaults to `0.06` in the source; the mean vector and
covariance matrix it caches are `meanVec`/`covMatrix` of `returns`). -/
structure PortfolioOptimizer where
  returns : ReturnsDf
  riskFreeRate : ℝ

/-- The weight dict `dict(zip(self.returns.columns, w))`. -/
def mkWeightsF (df : ReturnsDf) (w : Fin df.n → ℝ) : List (String × ℝ) :=
  df.cols.zip (List.ofFn w)

/-- `equal_weight`: `{stock: 1.0 / n_stocks for stock in self.returns.columns}`. -/
def equal_weight (df : ReturnsDf) : List (String × ℝ) :=
  df.cols.map (fun c => (c, 1 / (df.n : ℝ)))

/-- `risk_parity`: inverse-volatility weights, `inv_vol / inv_vol.sum()` with
`volatilities = sqrt(diag(cov_matrix))`. -/
def risk_parity (df : ReturnsDf) : List (String × ℝ) :=
  let invVol : Fin df.n → ℝ := fun i => 1 / Real.sqrt (df.covA i i)
  let s := ∑ i, invVol i
  mkWeightsF df (fun i => invVol i / s)

/-- `minimum_variance`: `w = pinv(cov) @ ones`, normalize, clip negatives to 0,
renormalize.  `P` stands for `np.linalg.pinv(self.cov_matrix.values)`; the
theorems constrain it by the Penrose equations. -/
def minimum_variance (df : ReturnsDf) (P : Matrix (Fin df.n) (Fin df.n) ℝ) :
    List (String × ℝ) :=
  let w1 := P.mulVec (fun _ => 1)
  let s1 := ∑ i, w1 i
  let w2 := fun i => w1 i / s1
  let w3 := fun i => max (w2 i) 0
  let s3 := ∑ i, w3 i
  mkWeightsF df (fun i => w3 i / s3)

/-- The four Penrose equations; `np.linalg.pinv A` is the unique solution. -/
def IsMoorePenrose {m : ℕ} (A P : Matrix (Fin m) (Fin m) ℝ) : Prop :=
  A * P * A = A ∧ P * A * P = P ∧ (A * P)ᵀ = A * P ∧ (P * A)ᵀ = P * A

/-- One iteration body of `maximum_sharpe`: normalize the draw and score it,
`sharpe = (ret - self.risk_free_rate) / vol` in IEEE arithmetic.  The
quadratic form is positive semidefinite (`quadForm_nonneg`), so `vol ≥ 0`:
the score is the finite real `(ret - rf)/vol` when `vol > 0`, and when
`vol = 0` numpy's division by `0.0` gives `-inf` / `+inf` for a negative /
positive excess return (`⊥` / `⊤ : EReal`) and NaN for `0/0` (modelled
`none`).  Returns the score with `w = draw / draw.sum()`. -/
def drawScore (o : PortfolioOptimizer) (d : Fin o.returns.n → ℝ) :
    Option EReal × (Fin o.returns.n → ℝ) :=
  let s := ∑ i, d i
  let w := fun i => d i / s
  let ret := w ⬝ᵥ meanVec o.returns
  let vol := Real.sqrt (w ⬝ᵥ (covMatrix o.returns).mulVec w)
  ( if 0 < vol then some (((ret - o.riskFreeRate) / vol : ℝ) : EReal)
    else if ret - o.riskFreeRate < 0 then some ⊥
    else if 0 < ret - o.riskFreeRate then some ⊤
    else none
  , w)

/-- One update of `(best_sharpe, best_weights)` by a draw: the update fires
iff `sharpe > best_sharpe`, where `best_sharpe` starts at `-np.inf` (the
`none` state, in which `best_weights` is still `None`).  A NaN score
(`none`) compares false and never updates; a `-inf` score never beats the
initial `-inf`. -/
def maxSharpeStep (o : PortfolioOptimizer)
    (best : Option (EReal × (Fin o.returns.n → ℝ)))
    (d : Fin o.returns.n → ℝ) :
    Option (EReal × (Fin o.returns.n → ℝ)) :=
  match (drawScore o d).1 with
  | none => best
  | some s =>
    match best with
    | none => if (⊥ : EReal) < s then some (s, (drawScore o d).2) else none
    | some bsw => if bsw.1 < s then some (s, (drawScore o d).2) else some bsw

/-- The `for _ in range(max_iter)` loop of `maximum_sharpe`: fold the update
over the random draws starting from `best_weights = None`.  `best_weights`
can remain `None` after the loop: when there are no draws, and also when no
draw's score exceeds `-inf`. -/
def maxSharpeFold (o : PortfolioOptimizer) (draws : List (Fin o.returns.n → ℝ)) :
    Option (EReal × (Fin o.returns.n → ℝ)) :=
  draws.foldl (maxSharpeStep o) none

/-- `maximum_sharpe`: random search over the given draws.  `none` models the
`TypeError` the source raises from `dict(zip(columns, None))` whenever
`best_weights` is still `None` after the loop — no draws, or every draw
scoring `-inf`/NaN (zero volatility with non-positive excess return). -/
def maximum_sharpe (o : PortfolioOptimizer) (draws : List (Fin o.returns.n → ℝ)) :
    Option (List (String × ℝ)) :=
  (maxSharpeFold o draws).map (fun sw => mkWeightsF o.returns sw.2)

/-- `momentum_weighted`: momentum = sum of each column over the trailing
`lookback_days` rows (`self.returns.tail(lookback_days).sum()`); keep the
strictly positive scores, normalize them, give the rest weight 0; fall back to
`equal_weight` when no score is positive. -/
def momentum_weighted (df : ReturnsDf) (lookback : ℕ) : List (String × ℝ) :=
  let m : Fin df.n → ℝ := fun i => ((df.colList i).drop (df.T - lookback)).sum
  let pos := Finset.univ.filter (fun i => 0 < m i)
  if pos.card = 0 then equal_weight df
  else
    let sPos := ∑ i in pos, m i
    mkWeightsF df (fun i => if 0 < m i then m i / sPos else 0)

/-- The per-asset Kelly fraction of `kelly_criterion` (the body of the
`for stock in self.returns.columns` loop), for one column of returns. -/
def rawKelly (rs : List ℝ) (maxAlloc : ℝ) : ℝ :=
  if rs.length = 0 then 0
  else
    let wins := rs.filter (fun x => decide (0 < x))
    let losses := rs.filter (fun x => decide (x < 0))
    if wins.length = 0 ∨ losses.length = 0 then 0
    else
      let p : ℝ := (wins.length : ℝ) / (rs.length : ℝ)
      let q : ℝ := 1 - p
      let avgWin := wins.sum / (wins.length : ℝ)
      let avgLoss := |losses.sum / (losses.length : ℝ)|
      if avgLoss = 0 then 0
      else
        let b := avgWin / avgLoss
        max 0 (min ((p * b - q) / b) maxAlloc)

/-- `kelly_criterion`: per-asset Kelly fractions, clipped to
`[0, max_allocation]`, normalized to sum 1, falling back to `equal_weight`
when the total is not positive. -/
def kelly_criterion (df : ReturnsDf) (maxAlloc : ℝ) : List (String × ℝ) :=
  let raw : Fin df.n → ℝ := fun i => rawKelly (df.colList i) maxAlloc
  let total := ∑ i, raw i
  if 0 < total then mkWeightsF df (fun i => raw i / total)
  else equal_weight df

/-- The positional weight vector `w = np.array([weights.get(stock, 0) for
stock in self.returns.columns])`. -/
def wvec (df : ReturnsDf) (weights : List (String × ℝ)) : Fin df.n → ℝ :=
  fun i => ((weights.lookup (df.cols.get i)).getD 0)

/-- Running cumulative sums, `series.cumsum()`. -/
def cumsumAux : ℝ → List ℝ → List ℝ
  | _, [] => []
  | acc, x :: xs => (acc + x) :: cumsumAux (acc + x) xs

/-- `series.cumsum()`. -/
def cumsum (xs : List ℝ) : List ℝ := cumsumAux 0 xs

/-- Tail of the running maximum, given the maximum so far. -/
def runMaxAux : ℝ → List ℝ → List ℝ
  | _, [] => []
  | m, x :: xs => max m x :: runMaxAux (max m x) xs

/-- `series.expanding().max()`: running maxima. -/
def runMax : List ℝ → List ℝ
  | [] => []
  | x :: xs => x :: runMaxAux x xs

/-- The record returned by `calculate_portfolio_metrics` (the field `sharpe`
models the dict entry `sharpe_ratio`; `max_drawdown` is `none` exactly when
the frame has no rows, where pandas produces `NaN`). -/
structure Metrics where
  annual_return : ℝ
  annual_volatility : ℝ
  sharpe : ℝ
  max_drawdown : Option ℝ

/-- `calculate_portfolio_metrics(weights)`. -/
def calculate_portfolio_metrics (o : PortfolioOptimizer)
    (weights : List (String × ℝ)) : Metrics :=
  let df := o.returns
  let w := wvec df weights
  let ret := w ⬝ᵥ meanVec df
  let vol := Real.sqrt (w ⬝ᵥ (covMatrix df).mulVec w)
  let cum := cumsum ((List.range df.T).map (fun t => ∑ i : Fin df.n, df.entry t i * w i))
  let dd := List.zipWith (fun a b => a - b) cum (runMax cum)
  { annual_return := ret
  , annual_volatility := vol
  , sharpe := if 0 < vol then (ret - o.riskFreeRate) / vol else 0
  , max_drawdown := dd.min? }

/-- The record returned by `project_growth` (`years_to_target` is an `EReal`
so that the source's `np.inf` is `⊤`). -/
structure GrowthProjection where
  projections : List (ℕ × ℝ × ℝ)
  years_to_target : EReal
  final_value : ℝ
  required_cagr : ℝ
  projected_cagr : ℝ

/-- The `for year in range(years + 1)` loop of `project_growth`: append
`(year, current, initial*(1+rc)^year)` then compound `current` by `(1 + r)`.
Returns the rows together with the final value of `current`. -/
def projectRows (initial rc r : ℝ) : ℕ → ℕ → ℝ → List (ℕ × ℝ × ℝ) × ℝ
  | 0, _, current => ([], current)
  | k + 1, year, current =>
    let rest := projectRows initial rc r k (year + 1) (current * (1 + r))
    ((year, current, initial * (1 + rc) ^ year) :: rest.1, rest.2)

/-- `project_growth(initial_capital, target_capital, weights, years)`. -/
def project_growth (o : PortfolioOptimizer) (initial target : ℝ)
    (weights : List (String × ℝ)) (years : ℕ) : GrowthProjection :=
  let r := (calculate_portfolio_metrics o weights).annual_return
  let rc := (target / initial) ^ ((1 : ℝ) / (years : ℝ)) - 1
  let res := projectRows initial rc r (years + 1) 0 initial
  { projections := res.1
  , years_to_target :=
      if 0 < r then ((Real.log (target / initial) / Real.log (1 + r) : ℝ) : EReal)
      else ⊤
  , final_value := res.2
  , required_cagr := rc
  , projected_cagr := r }

/-- A cell of the comparison table: the source stores the strategy name as a
string, four metrics formatted as strings (modelled by their underlying real
number), and the raw `Return/Vol` float. -/
inductive CellVal where
  | txt : String → CellVal
  | val : ℝ → CellVal
  | valOpt : Option ℝ → CellVal

/-- One row of `compare_all_strategies` for a named weight dict. -/
def metricsRow (o : PortfolioOptimizer) (name : String)
    (weights : List (String × ℝ)) : List (String × CellVal) :=
  let m := calculate_portfolio_metrics o weights
  [("Strategy", CellVal.txt name),
   ("Annual Return", CellVal.val m.annual_return),
   ("Annual Volatility", CellVal.val m.annual_volatility),
   ("Sharpe Ratio", CellVal.val m.sharpe),
   ("Max Drawdown", CellVal.valOpt m.max_drawdown),
   ("Return/Vol",
    CellVal.val (if 0 < m.annual_volatility then m.annual_return / m.annual_volatility
                 else 0))]

/-- `compare_all_strategies()`: run the six strategies (with their default
parameters: 1000 draws for `maximum_sharpe`, modelled by `draws`; lookback
90; `max_allocation = 0.25`) and build one row per strategy.  `P` is the
pseudo-inverse consumed by `minimum_variance`; the result is `none` exactly
when `maximum_sharpe` is (no draws, or no draw scoring above `-inf`, the
source's `TypeError`). -/
def compare_all_strategies (o : PortfolioOptimizer)
    (P : Matrix (Fin o.returns.n) (Fin o.returns.n) ℝ)
    (draws : List (Fin o.returns.n → ℝ)) :
    Option (List (List (String × CellVal))) :=
  (maximum_sharpe o draws).map (fun ms =>
    [metricsRow o ("Equal Weight") (equal_weight o.returns),
     metricsRow o ("Risk Parity") (risk_parity o.returns),
     metricsRow o ("Minimum Variance") (minimum_variance o.returns P),
     metricsRow o ("Maximum Sharpe") ms,
     metricsRow o ("Momentum Weighted") (momentum_weighted o.returns 90),
     metricsRow o ("Kelly Criterion") (kelly_criterion o.returns (0.25 : ℝ))])

/-- The well-formedness assumptions of a "valid return matrix": distinct
tickers, at least one asset, at least two aligned return rows, and no asset
of zero sample variance. -/
structure ValidDf (df : ReturnsDf) : Prop where
  nodup : df.cols.Nodup
  nassets : 1 ≤ df.n
  nrows : 2 ≤ df.T
  novar : ∀ i : Fin df.n, df.sampleCov i i ≠ 0

/-- The weight-map invariant asserted by the specification: the map carries
exactly the asset universe as keys, all weights are non-negative, and the
weights sum to 1 (exactly, in real arithmetic — hence within any tolerance). -/
def WeightProps (df : ReturnsDf) (ws : List (String × ℝ)) : Prop :=
  ws.map Prod.fst = df.cols ∧ (∀ p ∈ ws, 0 ≤ p.2) ∧ ((ws.map Prod.snd).sum = 1)

/-- Deviation of period `t` from the column means, aggregated by a portfolio
`v` (proof auxiliary for the covariance quadratic form). -/
def dev (df : ReturnsDf) (t : ℕ) (v : Fin df.n → ℝ) : ℝ :=
  ∑ i, v i * (df.entry t i - df.colMean i)

/-- The matrix of deviations from the column means (proof auxiliary:
`covMatrix = (252/(T-1)) • (devMatrixᵀ * devMatrix)`). -/
def devMatrix (df : ReturnsDf) : Matrix (Fin df.T) (Fin df.n) ℝ :=
  Matrix.of fun t i => df.entry t i - df.colMean i

/-! ### Concrete instances used by the claim-level theorems -/

/-- A valid single-asset frame: one ticker, two periods, nonzero variance. -/
def dfSingle : ReturnsDf := ⟨["A"], [[1/10], [-1/10]]⟩

/-- Entries of `covMatrix dfSingle` (the single annualized variance). -/
def covSingleFn : ℕ → ℕ → ℝ := fun _ _ => 126 / 25

/-- Entries of the identity matrix of any size (proof auxiliary). -/
def oneEntryFn : ℕ → ℕ → ℝ := fun a b => if a = b then 1 else 0

/-- Entries of the pseudo-inverse of `covMatrix dfSingle = [[126/25]]`. -/
def pinvSingleFn : ℕ → ℕ → ℝ := fun _ _ => 25 / 126

/-- The pseudo-inverse of `covMatrix dfSingle`. -/
def pinvSingle : Matrix (Fin dfSingle.n) (Fin dfSingle.n) ℝ :=
  Matrix.of fun i j => pinvSingleFn i.1 j.1

/-- Optimizer over `dfSingle` at the source's default risk-free rate. -/
def oSingle : PortfolioOptimizer := ⟨dfSingle, 0.06⟩

/-- One uniform random draw for the `maximum_sharpe` search over `dfSingle`. -/
def drawHalf : Fin dfSingle.n → ℝ := fun _ => 1 / 2

/-- Two perfectly anti-correlated assets over two periods: a valid frame whose
covariance matrix annihilates the ones-vector. -/
def dfAnti : ReturnsDf := ⟨["A", "B"], [[1/100, -1/100], [-1/100, 1/100]]⟩

/-- Entries of `covMatrix dfAnti = (63/1250) · [[1,-1],[-1,1]]`. -/
def covAntiFn : ℕ → ℕ → ℝ := fun a b => if a = b then 63/1250 else -(63/1250)

/-- Entries of the Moore–Penrose pseudo-inverse of the singular
`covMatrix dfAnti`. -/
def pinvAntiFn : ℕ → ℕ → ℝ := fun a b => if a = b then 625/126 else -(625/126)

/-- The Moore–Penrose pseudo-inverse of `covMatrix dfAnti`. -/
def pinvAnti : Matrix (Fin dfAnti.n) (Fin dfAnti.n) ℝ :=
  Matrix.of fun i j => pinvAntiFn i.1 j.1

/-- Entries of `covMatrix dfAnti * pinvAnti` (the projector `[[1,-1],[-1,1]]/2`). -/
def apAntiFn : ℕ → ℕ → ℝ := fun a b => if a = b then 1/2 else -(1/2)

/-- Three assets over four periods on which the no-short clipping of
`minimum_variance` activates and leaves a portfolio strictly riskier than
equal weight. -/
def dfClip : ReturnsDf := ⟨["A", "B", "C"],
  [[-2/100, -1/100, 0], [-1/100, 0, 2/100],
   [1/100, 0, -1/100], [2/100, 1/100, -1/100]]⟩

/-- Entries of `covMatrix dfClip`. -/
def covClipFn : ℕ → ℕ → ℝ := fun a b =>
  if a = 0 then (if b = 0 then 21/250 else if b = 1 then 21/625 else -(21/500))
  else if a = 1 then
    (if b = 0 then 21/625 else if b = 1 then 21/1250 else -(21/2500))
  else (if b = 0 then -(21/500) else if b = 1 then -(21/2500) else 63/1250)

/-- Entries of the inverse of the (invertible) `covMatrix dfClip`. -/
def pinvClipFn : ℕ → ℕ → ℝ := fun a b =>
  if a = 0 then
    (if b = 0 then 6875/21 else if b = 1 then -(11875/21) else 1250/7)
  else if a = 1 then
    (if b = 0 then -(11875/21) else if b = 1 then 3125/3 else -(6250/21))
  else (if b = 0 then 1250/7 else if b = 1 then -(6250/21) else 2500/21)

/-- The inverse of `covMatrix dfClip`. -/
def pinvClip : Matrix (Fin dfClip.n) (Fin dfClip.n) ℝ :=
  Matrix.of fun i j => pinvClipFn i.1 j.1

/-- Entries of `pinvClip * ones` (the unnormalized minimum-variance weights
of `dfClip`). -/
def uClipFn : ℕ → ℝ := fun a =>
  if a = 0 then -(1250/21) else if a = 1 then 1250/7 else 0

/-- The clipped-and-renormalized minimum-variance weights of `dfClip`:
everything on the second asset. -/
def wMinClipFn : ℕ → ℝ := fun a => if a = 1 then 1 else 0

/-- The equal-weight vector of a three-asset frame. -/
def thirdFn : ℕ → ℝ := fun _ => 1 / 3

/-- Optimizer over `dfClip`. -/
def oClip : PortfolioOptimizer := ⟨dfClip, 0.06⟩

/-- Two assets over three periods with invertible covariance whose
closed-form minimum-variance weights are already non-negative. -/
def dfDiag : ReturnsDf := ⟨["A", "B"], [[1/100, 0], [-1/100, 1/100], [0, -1/100]]⟩

/-- Entries of `covMatrix dfDiag`. -/
def covDiagFn : ℕ → ℕ → ℝ := fun a b => if a = b then 63/2500 else -(63/5000)

/-- Entries of the inverse of the (invertible) `covMatrix dfDiag`. -/
def pinvDiagFn : ℕ → ℕ → ℝ := fun a b => if a = b then 10000/189 else 10000/378

/-- The inverse of `covMatrix dfDiag`. -/
def pinvDiag : Matrix (Fin dfDiag.n) (Fin dfDiag.n) ℝ :=
  Matrix.of fun i j => pinvDiagFn i.1 j.1

/-- Optimizer over `dfDiag`. -/
def oDiag : PortfolioOptimizer := ⟨dfDiag, 0.06⟩

/-- A single asset with only positive returns (its loss set is empty). -/
def dfGain : ReturnsDf := ⟨["A"], [[1/100], [1/50]]⟩

/-- Optimizer over `dfGain`. -/
def oGain : PortfolioOptimizer := ⟨dfGain, 0.06⟩

/-- A single asset with constant periodic return `1/252`, so its annualized
mean return is exactly 1 and its variance is 0. -/
def dfConst : ReturnsDf := ⟨["A"], [[1/252], [1/252]]⟩

/-- Optimizer over `dfConst`. -/
def oConst : PortfolioOptimizer := ⟨dfConst, 0.06⟩

/-- A frame with two (empty) rows and no assets at all. -/
def dfEmpty : ReturnsDf := ⟨[], [[], []]⟩

/-- Optimizer over `dfEmpty`. -/
def oEmpty : PortfolioOptimizer := ⟨dfEmpty, 0.06⟩

/-! ## Helper lemmas -/

lemma zip_ofFn {α β : Type} {m : ℕ} (f : Fin m → α) (g : Fin m → β) :
    (List.ofFn f).zip (List.ofFn g) = List.ofFn (fun i => (f i, g i)) := by
  induction m with
  | zero => simp
  | succ k ih => simp [List.ofFn_succ, ih]

lemma mkWeightsF_eq_ofFn (df : ReturnsDf) (w : Fin df.n → ℝ) :
    mkWeightsF df w = List.ofFn (fun i => (df.cols.get i, w i)) := by
  unfold mkWeightsF
  conv_lhs => rw [← List.ofFn_get df.cols]
  exact zip_ofFn _ _

lemma keys_mkWeightsF (df : ReturnsDf) (w : Fin df.n → ℝ) :
    (mkWeightsF df w).map Prod.fst = df.cols := by
  rw [mkWeightsF_eq_ofFn, List.map_ofFn]
  exact List.ofFn_get df.cols

lemma snd_mkWeightsF (df : ReturnsDf) (w : Fin df.n → ℝ) :
    (mkWeightsF df w).map Prod.snd = List.ofFn w := by
  rw [mkWeightsF_eq_ofFn, List.map_ofFn]
  rfl

lemma sum_mkWeightsF (df : ReturnsDf) (w : Fin df.n → ℝ) :
    ((mkWeightsF df w).map Prod.snd).sum = ∑ i, w i := by
  rw [snd_mkWeightsF, List.sum_ofFn]

lemma mem_mkWeightsF (df : ReturnsDf) (w : Fin df.n → ℝ) (p : String × ℝ) :
    p ∈ mkWeightsF df w → ∃ i, p = (df.cols.get i, w i) := by
  rw [mkWeightsF_eq_ofFn, List.mem_ofFn]
  rintro ⟨i, rfl⟩
  exact ⟨i, rfl⟩

lemma equal_weight_eq_mkWeightsF (df : ReturnsDf) :
    equal_weight df = mkWeightsF df (fun _ => 1 / (df.n : ℝ)) := by
  rw [mkWeightsF_eq_ofFn]
  unfold equal_weight
  conv_lhs => rw [← List.ofFn_get df.cols, List.map_ofFn]
  rfl

lemma lookup_zip_get :
    ∀ (l : List String) (v : List ℝ), l.Nodup →
      ∀ (i : ℕ) (hi : i < l.length) (hv : i < v.length),
        (l.zip v).lookup (l[i]) = some (v[i])
  | [], _, _, i, hi, _ => absurd hi (Nat.not_lt_zero i)
  | c :: l', [], _, i, _, hv => absurd hv (Nat.not_lt_zero i)
  | c :: l', b :: v', hnd, 0, hi, hv => by
      simp
  | c :: l', b :: v', hnd, (i + 1), hi, hv => by
      have hi' : i < l'.length := Nat.lt_of_succ_lt_succ hi
      have hv' : i < v'.length := Nat.lt_of_succ_lt_succ hv
      have hmem : l'[i] ∈ l' := List.getElem_mem hi'
      have hcne : (l'[i] == c) = false := by
        refine beq_eq_false_iff_ne.mpr ?_
        intro h
        exact (List.nodup_cons.mp hnd).1 (h ▸ hmem)
      have ih := lookup_zip_get l' v' (List.nodup_cons.mp hnd).2 i hi' hv'
      simpa [List.lookup_cons, hcne] using ih

lemma lookup_mkWeightsF (df : ReturnsDf) (w : Fin df.n → ℝ)
    (hnd : df.cols.Nodup) (i : Fin df.n) :
    (mkWeightsF df w).lookup (df.cols.get i) = some (w i) := by
  unfold mkWeightsF
  have h1 : i.1 < df.cols.length := i.2
  have h2 : i.1 < (List.ofFn w).length := by simp
  have := lookup_zip_get df.cols (List.ofFn w) hnd i.1 h1 h2
  simpa using this

lemma wvec_mkWeightsF (df : ReturnsDf) (w : Fin df.n → ℝ) (hnd : df.cols.Nodup) :
    wvec df (mkWeightsF df w) = w := by
  funext i
  unfold wvec
  rw [lookup_mkWeightsF df w hnd i]
  rfl

lemma sampleCov_diag_nonneg (df : ReturnsDf) (i : ℕ) (h2 : 2 ≤ df.T) :
    0 ≤ df.sampleCov i i := by
  unfold sampleCov
  apply div_nonneg
  · exact Finset.sum_nonneg fun t _ => mul_self_nonneg _
  · have : (2 : ℝ) ≤ (df.T : ℝ) := by exact_mod_cast h2
    linarith

lemma covA_diag_pos (df : ReturnsDf) (hv : ValidDf df) (i : Fin df.n) :
    0 < df.covA i i := by
  unfold covA
  have h1 := sampleCov_diag_nonneg df i hv.nrows
  have h2 := hv.novar i
  have h3 : 0 < df.sampleCov i i := lt_of_le_of_ne h1 (Ne.symm h2)
  linarith

/-- The annualization coefficient of the covariance matrix. -/
lemma annualCoeff_pos (df : ReturnsDf) (h2 : 2 ≤ df.T) :
    0 < 252 / ((df.T : ℝ) - 1) := by
  have h : (2 : ℝ) ≤ (df.T : ℝ) := by exact_mod_cast h2
  have h1 : 0 < (df.T : ℝ) - 1 := by linarith
  exact div_pos (by norm_num) h1

lemma covMatrix_eq_dev (df : ReturnsDf) :
    covMatrix df = (252 / ((df.T : ℝ) - 1)) • ((devMatrix df)ᵀ * devMatrix df) := by
  ext i j
  simp only [covMatrix, Matrix.of_apply, covA, sampleCov, Matrix.smul_apply,
    Matrix.mul_apply, Matrix.transpose_apply, devMatrix, smul_eq_mul]
  rw [← Fin.sum_univ_eq_sum_range
    (fun t => (df.entry t i - df.colMean i) * (df.entry t j - df.colMean j)) df.T]
  simp only [div_eq_mul_inv]
  rw [Finset.sum_mul, Finset.mul_sum, Finset.mul_sum]
  exact Finset.sum_congr rfl fun t _ => by ring

lemma quadForm_eq_dev (df : ReturnsDf) (v w : Fin df.n → ℝ) :
    v ⬝ᵥ (covMatrix df).mulVec w
      = (252 / ((df.T : ℝ) - 1))
        * ((devMatrix df).mulVec v ⬝ᵥ (devMatrix df).mulVec w) := by
  rw [covMatrix_eq_dev]
  rw [Matrix.smul_mulVec_assoc, dotProduct_smul, smul_eq_mul]
  congr 1
  rw [← Matrix.mulVec_mulVec, Matrix.dotProduct_mulVec, Matrix.vecMul_transpose]

lemma quadForm_nonneg (df : ReturnsDf) (h2 : 2 ≤ df.T) (v : Fin df.n → ℝ) :
    0 ≤ v ⬝ᵥ (covMatrix df).mulVec v := by
  rw [quadForm_eq_dev]
  apply mul_nonneg (le_of_lt (annualCoeff_pos df h2))
  exact Finset.sum_nonneg fun t _ => mul_self_nonneg _

lemma quadForm_symm (df : ReturnsDf) (v w : Fin df.n → ℝ) :
    v ⬝ᵥ (covMatrix df).mulVec w = w ⬝ᵥ (covMatrix df).mulVec v := by
  rw [quadForm_eq_dev, quadForm_eq_dev, dotProduct_comm]

lemma mulVec_eq_zero_of_quadForm_zero (df : ReturnsDf) (h2 : 2 ≤ df.T)
    (v : Fin df.n → ℝ) (h0 : v ⬝ᵥ (covMatrix df).mulVec v = 0) :
    (covMatrix df).mulVec v = 0 := by
  have hc := annualCoeff_pos df h2
  rw [quadForm_eq_dev] at h0
  have hsum : (devMatrix df).mulVec v ⬝ᵥ (devMatrix df).mulVec v = 0 := by
    rcases mul_eq_zero.mp h0 with h | h
    · exact absurd h (ne_of_gt hc)
    · exact h
  have hzero : (devMatrix df).mulVec v = 0 := by
    funext t
    have := (Finset.sum_eq_zero_iff_of_nonneg
      (fun t _ => mul_self_nonneg ((devMatrix df).mulVec v t))).mp hsum t
      (Finset.mem_univ t)
    exact mul_self_eq_zero.mp this
  rw [covMatrix_eq_dev, Matrix.smul_mulVec_assoc, ← Matrix.mulVec_mulVec, hzero]
  simp

lemma mkWeightsF_norm_props (df : ReturnsDf)
    (g : Fin df.n → ℝ) (hg : ∀ i, 0 ≤ g i) (hs : 0 < ∑ j, g j) :
    ((mkWeightsF df (fun i => g i / ∑ j, g j)).map Prod.fst = df.cols)
    ∧ (∀ p ∈ mkWeightsF df (fun i => g i / ∑ j, g j), 0 ≤ p.2)
    ∧ (((mkWeightsF df (fun i => g i / ∑ j, g j)).map Prod.snd).sum = 1) := by
  refine ⟨keys_mkWeightsF _ _, ?_, ?_⟩
  · intro p hp
    obtain ⟨i, rfl⟩ := mem_mkWeightsF _ _ _ hp
    exact div_nonneg (hg i) (le_of_lt hs)
  · rw [sum_mkWeightsF, ← Finset.sum_div, div_self (ne_of_gt hs)]

lemma n_single (df : ReturnsDf) (c : String) (hc : df.cols = [c]) : df.n = 1 := by
  show df.cols.length = 1
  rw [hc]
  rfl

lemma finSubsingleton (df : ReturnsDf) (c : String) (hc : df.cols = [c]) :
    Subsingleton (Fin df.n) := by
  rw [n_single df c hc]
  infer_instance

lemma mkWeightsF_single (df : ReturnsDf) (c : String) (hc : df.cols = [c])
    (w : Fin df.n → ℝ) (i0 : Fin df.n) :
    mkWeightsF df w = [(c, w i0)] := by
  haveI := finSubsingleton df c hc
  obtain ⟨cols, rows⟩ := df
  dsimp only at hc
  subst hc
  have h0 : w i0 = w ⟨0, Nat.one_pos⟩ := congrArg w (Subsingleton.elim _ _)
  rw [h0]
  simp [mkWeightsF, List.ofFn_succ]

lemma covMatrix_mulVec_pinv_ones (df : ReturnsDf)
    (P : Matrix (Fin df.n) (Fin df.n) ℝ) (hPr : covMatrix df * P = 1) :
    (covMatrix df).mulVec (P.mulVec (fun _ => 1)) = (fun _ => 1) := by
  rw [Matrix.mulVec_mulVec, hPr, Matrix.one_mulVec]

lemma sum_pinv_ones_pos (df : ReturnsDf) (h2 : 2 ≤ df.T) (hn : 1 ≤ df.n)
    (P : Matrix (Fin df.n) (Fin df.n) ℝ) (hPr : covMatrix df * P = 1) :
    0 < ∑ i, P.mulVec (fun _ => 1) i := by
  set u := P.mulVec (fun _ => 1) with hu
  have hCu : (covMatrix df).mulVec u = (fun _ => 1) :=
    covMatrix_mulVec_pinv_ones df P hPr
  have hs : ∑ i, u i = u ⬝ᵥ (covMatrix df).mulVec u := by
    rw [hCu]
    unfold dotProduct
    simp
  have hnn : 0 ≤ u ⬝ᵥ (covMatrix df).mulVec u := quadForm_nonneg df h2 u
  rcases eq_or_lt_of_le hnn with heq | hlt
  · exfalso
    have h0 : (covMatrix df).mulVec u = 0 :=
      mulVec_eq_zero_of_quadForm_zero df h2 u heq.symm
    have hone : (fun _ => (1 : ℝ)) = (0 : Fin df.n → ℝ) := hCu ▸ h0
    have := congrFun hone ⟨0, hn⟩
    norm_num at this
  · rw [hs]
    exact hlt

lemma minvar_quadForm_le (df : ReturnsDf) (h2 : 2 ≤ df.T) (hn : 1 ≤ df.n)
    (P : Matrix (Fin df.n) (Fin df.n) ℝ) (hPr : covMatrix df * P = 1)
    (e : Fin df.n → ℝ) (he : ∑ i, e i = 1) :
    ((∑ j, P.mulVec (fun _ => 1) j)⁻¹ • P.mulVec (fun _ => 1))
        ⬝ᵥ (covMatrix df).mulVec
          ((∑ j, P.mulVec (fun _ => 1) j)⁻¹ • P.mulVec (fun _ => 1))
      ≤ e ⬝ᵥ (covMatrix df).mulVec e := by
  set u := P.mulVec (fun _ => 1) with hu
  set s := ∑ j, u j with hsdef
  have hspos : 0 < s := sum_pinv_ones_pos df h2 hn P hPr
  set w := s⁻¹ • u with hw
  have hCu : (covMatrix df).mulVec u = (fun _ => 1) :=
    covMatrix_mulVec_pinv_ones df P hPr
  have hCw : (covMatrix df).mulVec w = s⁻¹ • (fun _ => (1 : ℝ)) := by
    rw [hw, Matrix.mulVec_smul, hCu]
  have hsumw : ∑ i, w i = 1 := by
    rw [hw]
    simp only [Pi.smul_apply, smul_eq_mul]
    rw [← Finset.mul_sum, ← hsdef, inv_mul_cancel₀ (ne_of_gt hspos)]
  set d := e - w with hd
  have hsumd : ∑ i, d i = 0 := by
    rw [hd]
    simp only [Pi.sub_apply]
    rw [Finset.sum_sub_distrib, he, hsumw, sub_self]
  have hdw : d ⬝ᵥ (covMatrix df).mulVec w = 0 := by
    rw [hCw, dotProduct_smul]
    have : d ⬝ᵥ (fun _ => (1 : ℝ)) = ∑ i, d i := by
      unfold dotProduct
      simp
    rw [this, hsumd, smul_eq_mul, mul_zero]
  have hwd : w ⬝ᵥ (covMatrix df).mulVec d = 0 := by
    rw [quadForm_symm]
    exact hdw
  have hdd : 0 ≤ d ⬝ᵥ (covMatrix df).mulVec d := quadForm_nonneg df h2 d
  have hytot : e = w + d := by
    rw [hd]
    abel
  calc w ⬝ᵥ (covMatrix df).mulVec w
      ≤ w ⬝ᵥ (covMatrix df).mulVec w
        + (w ⬝ᵥ (covMatrix df).mulVec d + (d ⬝ᵥ (covMatrix df).mulVec w
          + d ⬝ᵥ (covMatrix df).mulVec d)) := by
        rw [hwd, hdw]
        linarith
    _ = e ⬝ᵥ (covMatrix df).mulVec e := by
        rw [hytot, Matrix.mulVec_add, dotProduct_add, add_dotProduct,
          add_dotProduct]
        ring

lemma maxSharpeStep_cases (o : PortfolioOptimizer)
    (acc : Option (EReal × (Fin o.returns.n → ℝ))) (d : Fin o.returns.n → ℝ) :
    maxSharpeStep o acc d = acc
    ∨ ∃ s, (drawScore o d).1 = some s
        ∧ maxSharpeStep o acc d = some (s, (drawScore o d).2) := by
  unfold maxSharpeStep
  cases hsc : (drawScore o d).1 with
  | none => exact Or.inl rfl
  | some s =>
      cases acc with
      | none =>
          by_cases h : (⊥ : EReal) < s
          · refine Or.inr ⟨s, rfl, ?_⟩
            dsimp only
            rw [if_pos h]
          · refine Or.inl ?_
            dsimp only
            rw [if_neg h]
      | some bsw =>
          by_cases h : bsw.1 < s
          · refine Or.inr ⟨s, rfl, ?_⟩
            dsimp only
            rw [if_pos h]
          · refine Or.inl ?_
            dsimp only
            rw [if_neg h]

lemma maxSharpeFold_from (o : PortfolioOptimizer) :
    ∀ (draws : List (Fin o.returns.n → ℝ))
      (acc : Option (EReal × (Fin o.returns.n → ℝ))),
      draws.foldl (maxSharpeStep o) acc = acc
      ∨ ∃ d ∈ draws, ∃ s, (drawScore o d).1 = some s
          ∧ draws.foldl (maxSharpeStep o) acc = some (s, (drawScore o d).2)
  | [], acc => Or.inl rfl
  | d :: rest, acc => by
      rw [List.foldl_cons]
      rcases maxSharpeFold_from o rest (maxSharpeStep o acc d) with
        h | ⟨d', hd', s, hs, h⟩
      · rw [h]
        rcases maxSharpeStep_cases o acc d with h2 | ⟨s, hs, h2⟩
        · exact Or.inl h2
        · exact Or.inr ⟨d, List.mem_cons_self d rest, s, hs, h2⟩
      · exact Or.inr ⟨d', List.mem_cons_of_mem d hd', s, hs, h⟩

lemma maxSharpeStep_of_some (o : PortfolioOptimizer)
    (bsw : EReal × (Fin o.returns.n → ℝ)) (d : Fin o.returns.n → ℝ) :
    ∃ y, maxSharpeStep o (some bsw) d = some y := by
  unfold maxSharpeStep
  cases (drawScore o d).1 with
  | none => exact ⟨bsw, rfl⟩
  | some s =>
      by_cases h : bsw.1 < s
      · refine ⟨(s, (drawScore o d).2), ?_⟩
        dsimp only
        rw [if_pos h]
      · refine ⟨bsw, ?_⟩
        dsimp only
        rw [if_neg h]

lemma maxSharpeFold_some_of_some (o : PortfolioOptimizer) :
    ∀ (draws : List (Fin o.returns.n → ℝ))
      (bsw : EReal × (Fin o.returns.n → ℝ)),
      ∃ y, draws.foldl (maxSharpeStep o) (some bsw) = some y
  | [], bsw => ⟨bsw, rfl⟩
  | d :: rest, bsw => by
      rw [List.foldl_cons]
      obtain ⟨y1, hy1⟩ := maxSharpeStep_of_some o bsw d
      rw [hy1]
      exact maxSharpeFold_some_of_some o rest y1

lemma maxSharpeFold_eq_some (o : PortfolioOptimizer)
    (draws : List (Fin o.returns.n → ℝ))
    (hacc : ∃ d ∈ draws, ∃ s, (drawScore o d).1 = some s ∧ (⊥ : EReal) < s) :
    ∃ d ∈ draws, ∃ s, (drawScore o d).1 = some s
      ∧ maxSharpeFold o draws = some (s, (drawScore o d).2) := by
  obtain ⟨d0, hd0, s0, hs0, hb0⟩ := hacc
  obtain ⟨l1, l2, rfl⟩ := List.append_of_mem hd0
  have hsome : ∃ y, maxSharpeFold o (l1 ++ d0 :: l2) = some y := by
    unfold maxSharpeFold
    rw [List.foldl_append, List.foldl_cons]
    have hstep : ∃ y1, maxSharpeStep o (l1.foldl (maxSharpeStep o) none) d0
        = some y1 := by
      cases hl1 : l1.foldl (maxSharpeStep o) none with
      | none =>
          refine ⟨(s0, (drawScore o d0).2), ?_⟩
          unfold maxSharpeStep
          rw [hs0]
          dsimp only
          rw [if_pos hb0]
      | some bsw => exact maxSharpeStep_of_some o bsw d0
    obtain ⟨y1, hy1⟩ := hstep
    rw [hy1]
    exact maxSharpeFold_some_of_some o l2 y1
  obtain ⟨y, hy⟩ := hsome
  rcases maxSharpeFold_from o (l1 ++ d0 :: l2) none with h | h
  · have hy' : (l1 ++ d0 :: l2).foldl (maxSharpeStep o) none = some y := hy
    rw [h] at hy'
    exact absurd hy' (by simp)
  · exact h

lemma mkWeightsF_norm_wprops (df : ReturnsDf)
    (g : Fin df.n → ℝ) (hg : ∀ i, 0 ≤ g i) (hs : 0 < ∑ j, g j) :
    WeightProps df (mkWeightsF df (fun i => g i / ∑ j, g j)) :=
  mkWeightsF_norm_props df g hg hs

lemma single_norm (df : ReturnsDf) (c : String) (hc : df.cols = [c])
    (g : Fin df.n → ℝ) (i0 : Fin df.n) (hg : g i0 ≠ 0) :
    mkWeightsF df (fun i => g i / ∑ j, g j) = [(c, 1)] := by
  haveI := finSubsingleton df c hc
  rw [mkWeightsF_single df c hc _ i0]
  have hsum : (∑ j, g j) = g i0 := Fintype.sum_subsingleton g i0
  have hval : g i0 / ∑ j, g j = 1 := by
    rw [hsum]
    exact div_self hg
  exact congrArg (fun y => [(c, y)]) hval

lemma equal_weight_props (df : ReturnsDf) (hn : 1 ≤ df.n) :
    WeightProps df (equal_weight df) := by
  refine ⟨?_, ?_, ?_⟩
  · unfold equal_weight
    rw [List.map_map]
    exact List.map_id df.cols
  · intro p hp
    unfold equal_weight at hp
    obtain ⟨c, _, rfl⟩ := List.mem_map.mp hp
    have : (0 : ℝ) < df.n := by exact_mod_cast hn
    positivity
  · unfold equal_weight
    rw [List.map_map]
    have hmap : (df.cols.map (Prod.snd ∘ fun c => (c, 1 / (df.n : ℝ))))
        = df.cols.map (fun _ => 1 / (df.n : ℝ)) := rfl
    rw [hmap, List.map_const', List.sum_replicate, nsmul_eq_mul]
    have hne : (df.n : ℝ) ≠ 0 := by
      have : (0 : ℝ) < df.n := by exact_mod_cast hn
      exact ne_of_gt this
    rw [show df.cols.length = df.n from rfl]
    field_simp

lemma equal_weight_single (df : ReturnsDf) (c : String) (hc : df.cols = [c]) :
    equal_weight df = [(c, 1)] := by
  obtain ⟨cols, rows⟩ := df
  dsimp only at hc
  subst hc
  unfold equal_weight
  norm_num [ReturnsDf.n]

lemma risk_parity_eq (df : ReturnsDf) :
    risk_parity df = mkWeightsF df (fun i =>
      (1 / Real.sqrt (df.covA i i))
        / ∑ j : Fin df.n, 1 / Real.sqrt (df.covA j j)) := rfl

lemma invVol_pos (df : ReturnsDf) (hv : ValidDf df) (i : Fin df.n) :
    0 < 1 / Real.sqrt (df.covA i i) := by
  have h := covA_diag_pos df hv i
  have : 0 < Real.sqrt (df.covA i i) := Real.sqrt_pos.mpr h
  positivity

lemma risk_parity_props (df : ReturnsDf) (hv : ValidDf df) :
    WeightProps df (risk_parity df) := by
  rw [risk_parity_eq]
  refine mkWeightsF_norm_wprops df _ (fun i => le_of_lt (invVol_pos df hv i)) ?_
  have : Nonempty (Fin df.n) := ⟨⟨0, hv.nassets⟩⟩
  exact Finset.sum_pos (fun i _ => invVol_pos df hv i) Finset.univ_nonempty

lemma risk_parity_single (df : ReturnsDf) (hv : ValidDf df) (c : String)
    (hc : df.cols = [c]) : risk_parity df = [(c, 1)] := by
  rw [risk_parity_eq]
  exact single_norm df c hc _ ⟨0, hv.nassets⟩
    (ne_of_gt (invVol_pos df hv ⟨0, hv.nassets⟩))

lemma minimum_variance_eq (df : ReturnsDf)
    (P : Matrix (Fin df.n) (Fin df.n) ℝ) :
    minimum_variance df P = mkWeightsF df (fun i =>
      max (P.mulVec (fun _ => 1) i / ∑ j, P.mulVec (fun _ => 1) j) 0
        / ∑ j, max (P.mulVec (fun _ => 1) j / ∑ k, P.mulVec (fun _ => 1) k) 0) :=
  rfl

lemma minvar_clip_sum_pos (df : ReturnsDf)
    (P : Matrix (Fin df.n) (Fin df.n) ℝ)
    (hs1 : (∑ i, P.mulVec (fun _ => 1) i) ≠ 0) :
    0 < ∑ j, max (P.mulVec (fun _ => 1) j / ∑ k, P.mulVec (fun _ => 1) k) 0 := by
  have hsum2 : ∑ j, P.mulVec (fun _ => 1) j / ∑ k, P.mulVec (fun _ => 1) k
      = 1 := by
    rw [← Finset.sum_div, div_self hs1]
  have hle : (∑ j, P.mulVec (fun _ => 1) j / ∑ k, P.mulVec (fun _ => 1) k)
      ≤ ∑ j, max (P.mulVec (fun _ => 1) j / ∑ k, P.mulVec (fun _ => 1) k) 0 :=
    Finset.sum_le_sum (fun j _ => le_max_left _ _)
  linarith

lemma minimum_variance_props (df : ReturnsDf)
    (P : Matrix (Fin df.n) (Fin df.n) ℝ)
    (hs1 : (∑ i, P.mulVec (fun _ => 1) i) ≠ 0) :
    WeightProps df (minimum_variance df P) := by
  rw [minimum_variance_eq]
  exact mkWeightsF_norm_wprops df _ (fun i => le_max_right _ _)
    (minvar_clip_sum_pos df P hs1)

lemma minimum_variance_single (df : ReturnsDf) (hv : ValidDf df)
    (P : Matrix (Fin df.n) (Fin df.n) ℝ)
    (hp : IsMoorePenrose (covMatrix df) P) (c : String)
    (hc : df.cols = [c]) : minimum_variance df P = [(c, 1)] := by
  haveI := finSubsingleton df c hc
  set i0 : Fin df.n := ⟨0, hv.nassets⟩ with hi0
  have hA00 : (0 : ℝ) < covMatrix df i0 i0 := covA_diag_pos df hv i0
  have hP00 : P i0 i0 ≠ 0 := by
    intro h0
    have h1 := congrFun (congrFun hp.1 i0) i0
    rw [Matrix.mul_apply, Fintype.sum_subsingleton _ i0, Matrix.mul_apply,
      Fintype.sum_subsingleton _ i0, h0] at h1
    nlinarith
  have hu : (P.mulVec (fun _ => 1)) i0 = P i0 i0 := by
    show (∑ j, P i0 j * 1) = P i0 i0
    rw [Fintype.sum_subsingleton _ i0, mul_one]
  rw [minimum_variance_eq]
  refine single_norm df c hc _ i0 ?_
  have hsumu : (∑ j, P.mulVec (fun _ => 1) j) = P.mulVec (fun _ => 1) i0 :=
    Fintype.sum_subsingleton _ i0
  show max (P.mulVec (fun _ => 1) i0 / ∑ j, P.mulVec (fun _ => 1) j) 0 ≠ 0
  rw [hsumu, hu, div_self hP00]
  norm_num

lemma drawScore_snd (o : PortfolioOptimizer) (d : Fin o.returns.n → ℝ) :
    (drawScore o d).2 = fun i => d i / ∑ j, d j := rfl

lemma maximum_sharpe_props (o : PortfolioOptimizer)
    (draws : List (Fin o.returns.n → ℝ))
    (hdr : ∀ d ∈ draws, (∀ i, 0 ≤ d i) ∧ 0 < ∑ i, d i)
    (hacc : ∃ d ∈ draws, ∃ s, (drawScore o d).1 = some s ∧ (⊥ : EReal) < s) :
    ∃ ws, maximum_sharpe o draws = some ws ∧ WeightProps o.returns ws := by
  obtain ⟨d, hd, s, hs, hfold⟩ := maxSharpeFold_eq_some o draws hacc
  refine ⟨mkWeightsF o.returns (drawScore o d).2, ?_, ?_⟩
  · unfold maximum_sharpe
    rw [hfold]
    rfl
  · rw [drawScore_snd]
    exact mkWeightsF_norm_wprops _ _ (hdr d hd).1 (hdr d hd).2

lemma single_draw_accepted (o : PortfolioOptimizer) (hv : ValidDf o.returns)
    (c : String) (hc : o.returns.cols = [c])
    (d : Fin o.returns.n → ℝ) (hd : 0 < ∑ i, d i) :
    ∃ s, (drawScore o d).1 = some s ∧ (⊥ : EReal) < s := by
  haveI := finSubsingleton o.returns c hc
  have hn1 : o.returns.n = 1 := n_single o.returns c hc
  have hpos : 0 < o.returns.n := by omega
  have hsum : ∑ j, d j = d ⟨0, hpos⟩ := Fintype.sum_subsingleton d _
  have hdi0 : d ⟨0, hpos⟩ ≠ 0 := by
    rw [hsum] at hd
    exact ne_of_gt hd
  have hw1 : (fun i => d i / ∑ j, d j) ⟨0, hpos⟩ = 1 := by
    show d ⟨0, hpos⟩ / ∑ j, d j = 1
    rw [hsum]
    exact div_self hdi0
  have hq : (fun i => d i / ∑ j, d j) ⬝ᵥ
      (covMatrix o.returns).mulVec (fun i => d i / ∑ j, d j)
      = covMatrix o.returns ⟨0, hpos⟩ ⟨0, hpos⟩ := by
    have h1 : (fun i => d i / ∑ j, d j) ⬝ᵥ
        (covMatrix o.returns).mulVec (fun i => d i / ∑ j, d j)
        = (fun i => d i / ∑ j, d j) ⟨0, hpos⟩
          * (covMatrix o.returns).mulVec (fun i => d i / ∑ j, d j) ⟨0, hpos⟩ :=
      Fintype.sum_subsingleton _ _
    have h2 : (covMatrix o.returns).mulVec (fun i => d i / ∑ j, d j) ⟨0, hpos⟩
        = covMatrix o.returns ⟨0, hpos⟩ ⟨0, hpos⟩
          * (fun i => d i / ∑ j, d j) ⟨0, hpos⟩ := by
      show ∑ k, covMatrix o.returns ⟨0, hpos⟩ k
          * (fun i => d i / ∑ j, d j) k = _
      exact Fintype.sum_subsingleton _ _
    rw [h1, h2, hw1]
    ring
  have hcpos : 0 < covMatrix o.returns ⟨0, hpos⟩ ⟨0, hpos⟩ :=
    covA_diag_pos o.returns hv ⟨0, hpos⟩
  have hvol : 0 < Real.sqrt ((fun i => d i / ∑ j, d j) ⬝ᵥ
      (covMatrix o.returns).mulVec (fun i => d i / ∑ j, d j)) := by
    rw [hq]
    exact Real.sqrt_pos.mpr hcpos
  refine ⟨((((fun i => d i / ∑ j, d j) ⬝ᵥ meanVec o.returns) - o.riskFreeRate)
      / Real.sqrt ((fun i => d i / ∑ j, d j) ⬝ᵥ
        (covMatrix o.returns).mulVec (fun i => d i / ∑ j, d j)) : ℝ), ?_, ?_⟩
  · show (if 0 < Real.sqrt ((fun i => d i / ∑ j, d j) ⬝ᵥ
          (covMatrix o.returns).mulVec (fun i => d i / ∑ j, d j))
        then some (((((fun i => d i / ∑ j, d j) ⬝ᵥ meanVec o.returns)
            - o.riskFreeRate)
          / Real.sqrt ((fun i => d i / ∑ j, d j) ⬝ᵥ
            (covMatrix o.returns).mulVec (fun i => d i / ∑ j, d j)) : ℝ) : EReal)
        else if ((fun i => d i / ∑ j, d j) ⬝ᵥ meanVec o.returns)
            - o.riskFreeRate < 0 then some ⊥
        else if 0 < ((fun i => d i / ∑ j, d j) ⬝ᵥ meanVec o.returns)
            - o.riskFreeRate then some ⊤
        else none)
      = some (((((fun i => d i / ∑ j, d j) ⬝ᵥ meanVec o.returns)
            - o.riskFreeRate)
          / Real.sqrt ((fun i => d i / ∑ j, d j) ⬝ᵥ
            (covMatrix o.returns).mulVec (fun i => d i / ∑ j, d j)) : ℝ) : EReal)
    rw [if_pos hvol]
  · exact EReal.bot_lt_coe _

lemma maximum_sharpe_single (o : PortfolioOptimizer) (c : String)
    (hc : o.returns.cols = [c]) (draws : List (Fin o.returns.n → ℝ))
    (hdr : ∀ d ∈ draws, (∀ i, 0 ≤ d i) ∧ 0 < ∑ i, d i)
    (hacc : ∃ d ∈ draws, ∃ s, (drawScore o d).1 = some s ∧ (⊥ : EReal) < s) :
    maximum_sharpe o draws = some [(c, 1)] := by
  obtain ⟨d, hd, s, hs, hfold⟩ := maxSharpeFold_eq_some o draws hacc
  unfold maximum_sharpe
  rw [hfold, Option.map_some']
  congr 1
  rw [drawScore_snd]
  haveI := finSubsingleton o.returns c hc
  have hn1 : o.returns.n = 1 := n_single o.returns c hc
  refine single_norm o.returns c hc d ⟨0, by rw [hn1]; norm_num⟩ ?_
  intro h0
  have hsum := (hdr d hd).2
  have hss : ∑ i, d i = d ⟨0, by rw [hn1]; norm_num⟩ :=
    Fintype.sum_subsingleton d _
  rw [hss, h0] at hsum
  exact lt_irrefl 0 hsum

lemma momentum_weighted_eq_fallback (df : ReturnsDf) (lb : ℕ)
    (h : (Finset.univ.filter
      (fun i : Fin df.n => 0 < ((df.colList i).drop (df.T - lb)).sum)).card = 0) :
    momentum_weighted df lb = equal_weight df := by
  simp only [momentum_weighted]
  rw [if_pos h]

lemma momentum_weighted_eq_pos (df : ReturnsDf) (lb : ℕ)
    (h : (Finset.univ.filter
      (fun i : Fin df.n => 0 < ((df.colList i).drop (df.T - lb)).sum)).card ≠ 0) :
    momentum_weighted df lb = mkWeightsF df (fun i =>
      (if 0 < ((df.colList i).drop (df.T - lb)).sum
       then ((df.colList i).drop (df.T - lb)).sum else 0)
      / ∑ j : Fin df.n, (if 0 < ((df.colList j).drop (df.T - lb)).sum
              then ((df.colList j).drop (df.T - lb)).sum else 0)) := by
  simp only [momentum_weighted]
  rw [if_neg h]
  congr 1
  funext i
  rw [← Finset.sum_filter]
  by_cases hi : 0 < ((df.colList i).drop (df.T - lb)).sum
  · simp only [if_pos hi]
  · simp only [if_neg hi]
    rw [zero_div]

lemma momentum_weighted_props (df : ReturnsDf) (hn : 1 ≤ df.n) (lb : ℕ) :
    WeightProps df (momentum_weighted df lb) := by
  by_cases h : (Finset.univ.filter
      (fun i : Fin df.n => 0 < ((df.colList i).drop (df.T - lb)).sum)).card = 0
  · rw [momentum_weighted_eq_fallback df lb h]
    exact equal_weight_props df hn
  · rw [momentum_weighted_eq_pos df lb h]
    apply mkWeightsF_norm_wprops
    · intro i
      by_cases hi : 0 < ((df.colList i).drop (df.T - lb)).sum
      · rw [if_pos hi]
        exact le_of_lt hi
      · rw [if_neg hi]
    · rw [← Finset.sum_filter]
      refine Finset.sum_pos (fun i hi => (Finset.mem_filter.mp hi).2) ?_
      exact Finset.card_pos.mp (Nat.pos_of_ne_zero h)

lemma momentum_weighted_single (df : ReturnsDf) (c : String)
    (hc : df.cols = [c]) (lb : ℕ) : momentum_weighted df lb = [(c, 1)] := by
  by_cases h : (Finset.univ.filter
      (fun i : Fin df.n => 0 < ((df.colList i).drop (df.T - lb)).sum)).card = 0
  · rw [momentum_weighted_eq_fallback df lb h]
    exact equal_weight_single df c hc
  · rw [momentum_weighted_eq_pos df lb h]
    haveI := finSubsingleton df c hc
    obtain ⟨j, hj⟩ := Finset.card_pos.mp (Nat.pos_of_ne_zero h)
    have hjm : 0 < ((df.colList j).drop (df.T - lb)).sum :=
      (Finset.mem_filter.mp hj).2
    refine single_norm df c hc _ j ?_
    rw [if_pos hjm]
    exact ne_of_gt hjm

lemma rawKelly_nonneg (rs : List ℝ) (ma : ℝ) : 0 ≤ rawKelly rs ma := by
  unfold rawKelly
  dsimp only
  split_ifs
  all_goals first
    | exact le_rfl
    | exact le_max_left 0 _

lemma kelly_criterion_eq_pos (df : ReturnsDf) (ma : ℝ)
    (h : 0 < ∑ i : Fin df.n, rawKelly (df.colList i) ma) :
    kelly_criterion df ma = mkWeightsF df
      (fun i => rawKelly (df.colList i) ma
        / ∑ j : Fin df.n, rawKelly (df.colList j) ma) := by
  simp only [kelly_criterion]
  rw [if_pos h]

lemma kelly_criterion_eq_fallback (df : ReturnsDf) (ma : ℝ)
    (h : ¬ 0 < ∑ i : Fin df.n, rawKelly (df.colList i) ma) :
    kelly_criterion df ma = equal_weight df := by
  simp only [kelly_criterion]
  rw [if_neg h]

lemma kelly_criterion_props (df : ReturnsDf) (hn : 1 ≤ df.n) (ma : ℝ) :
    WeightProps df (kelly_criterion df ma) := by
  by_cases h : 0 < ∑ i : Fin df.n, rawKelly (df.colList i) ma
  · rw [kelly_criterion_eq_pos df ma h]
    exact mkWeightsF_norm_wprops df _ (fun i => rawKelly_nonneg _ _) h
  · rw [kelly_criterion_eq_fallback df ma h]
    exact equal_weight_props df hn

lemma kelly_criterion_single (df : ReturnsDf) (c : String)
    (hc : df.cols = [c]) (ma : ℝ) : kelly_criterion df ma = [(c, 1)] := by
  by_cases h : 0 < ∑ i : Fin df.n, rawKelly (df.colList i) ma
  · rw [kelly_criterion_eq_pos df ma h]
    haveI := finSubsingleton df c hc
    have hn1 : df.n = 1 := n_single df c hc
    refine single_norm df c hc _ ⟨0, by rw [hn1]; norm_num⟩ ?_
    intro h0
    have hsum : ∑ i : Fin df.n, rawKelly (df.colList i) ma
        = rawKelly (df.colList (⟨0, by rw [hn1]; norm_num⟩ : Fin df.n)) ma :=
      Fintype.sum_subsingleton _ _
    rw [hsum, h0] at h
    exact lt_irrefl 0 h
  · rw [kelly_criterion_eq_fallback df ma h]
    exact equal_weight_single df c hc

lemma annual_return_eq (o : PortfolioOptimizer) (weights : List (String × ℝ)) :
    (calculate_portfolio_metrics o weights).annual_return
      = wvec o.returns weights ⬝ᵥ meanVec o.returns := rfl

lemma annual_volatility_eq (o : PortfolioOptimizer) (weights : List (String × ℝ)) :
    (calculate_portfolio_metrics o weights).annual_volatility
      = Real.sqrt (wvec o.returns weights
          ⬝ᵥ (covMatrix o.returns).mulVec (wvec o.returns weights)) := rfl

lemma sharpe_eq (o : PortfolioOptimizer) (weights : List (String × ℝ)) :
    (calculate_portfolio_metrics o weights).sharpe
      = (if 0 < (calculate_portfolio_metrics o weights).annual_volatility
         then ((calculate_portfolio_metrics o weights).annual_return
            - o.riskFreeRate) / (calculate_portfolio_metrics o weights).annual_volatility
         else 0) := rfl

lemma wvec_equal_weight (df : ReturnsDf) (hnd : df.cols.Nodup) :
    wvec df (equal_weight df) = fun _ => 1 / (df.n : ℝ) := by
  rw [equal_weight_eq_mkWeightsF]
  exact wvec_mkWeightsF df _ hnd

lemma sum_equal_vec (df : ReturnsDf) (hn : 1 ≤ df.n) :
    (∑ _i : Fin df.n, (1 : ℝ) / (df.n : ℝ)) = 1 := by
  rw [Finset.sum_const, Finset.card_univ, Fintype.card_fin, nsmul_eq_mul]
  have hne : (df.n : ℝ) ≠ 0 := by
    have : (0 : ℝ) < df.n := by exact_mod_cast hn
    exact ne_of_gt this
  field_simp

/-! ### Generic small-dimension evaluation lemmas -/

lemma sum_fin_one {m : ℕ} (hm : m = 1) (v : Fin m → ℝ) :
    ∑ i, v i = v ⟨0, by omega⟩ := by
  subst hm
  rw [Fin.sum_univ_one]
  rfl

lemma sum_fin_two {m : ℕ} (hm : m = 2) (v : Fin m → ℝ) :
    ∑ i, v i = v ⟨0, by omega⟩ + v ⟨1, by omega⟩ := by
  subst hm
  rw [Fin.sum_univ_two]
  rfl

lemma sum_fin_three {m : ℕ} (hm : m = 3) (v : Fin m → ℝ) :
    ∑ i, v i = v ⟨0, by omega⟩ + v ⟨1, by omega⟩ + v ⟨2, by omega⟩ := by
  subst hm
  rw [Fin.sum_univ_three]
  rfl

lemma matMul_entry_one {m : ℕ} (hm : m = 1)
    (A B : Matrix (Fin m) (Fin m) ℝ) (fA fB : ℕ → ℕ → ℝ)
    (hA : ∀ i j, A i j = fA i.1 j.1) (hB : ∀ i j, B i j = fB i.1 j.1)
    (i j : Fin m) :
    (A * B) i j = fA i.1 0 * fB 0 j.1 := by
  rw [Matrix.mul_apply, sum_fin_one hm, hA, hB]

lemma matMul_entry_two {m : ℕ} (hm : m = 2)
    (A B : Matrix (Fin m) (Fin m) ℝ) (fA fB : ℕ → ℕ → ℝ)
    (hA : ∀ i j, A i j = fA i.1 j.1) (hB : ∀ i j, B i j = fB i.1 j.1)
    (i j : Fin m) :
    (A * B) i j = fA i.1 0 * fB 0 j.1 + fA i.1 1 * fB 1 j.1 := by
  rw [Matrix.mul_apply, sum_fin_two hm, hA, hA, hB, hB]

lemma matMul_entry_three {m : ℕ} (hm : m = 3)
    (A B : Matrix (Fin m) (Fin m) ℝ) (fA fB : ℕ → ℕ → ℝ)
    (hA : ∀ i j, A i j = fA i.1 j.1) (hB : ∀ i j, B i j = fB i.1 j.1)
    (i j : Fin m) :
    (A * B) i j = fA i.1 0 * fB 0 j.1 + fA i.1 1 * fB 1 j.1
      + fA i.1 2 * fB 2 j.1 := by
  rw [Matrix.mul_apply, sum_fin_three hm, hA, hA, hA, hB, hB, hB]

lemma mulVec_ones_entry_one {m : ℕ} (hm : m = 1)
    (B : Matrix (Fin m) (Fin m) ℝ) (fB : ℕ → ℕ → ℝ)
    (hB : ∀ i j, B i j = fB i.1 j.1) (i : Fin m) :
    B.mulVec (fun _ => 1) i = fB i.1 0 := by
  show (∑ j, B i j * 1) = fB i.1 0
  rw [sum_fin_one hm, hB, mul_one]

lemma mulVec_ones_entry_two {m : ℕ} (hm : m = 2)
    (B : Matrix (Fin m) (Fin m) ℝ) (fB : ℕ → ℕ → ℝ)
    (hB : ∀ i j, B i j = fB i.1 j.1) (i : Fin m) :
    B.mulVec (fun _ => 1) i = fB i.1 0 + fB i.1 1 := by
  show (∑ j, B i j * 1) = fB i.1 0 + fB i.1 1
  rw [sum_fin_two hm, hB, hB, mul_one, mul_one]

lemma mulVec_ones_entry_three {m : ℕ} (hm : m = 3)
    (B : Matrix (Fin m) (Fin m) ℝ) (fB : ℕ → ℕ → ℝ)
    (hB : ∀ i j, B i j = fB i.1 j.1) (i : Fin m) :
    B.mulVec (fun _ => 1) i = fB i.1 0 + fB i.1 1 + fB i.1 2 := by
  show (∑ j, B i j * 1) = fB i.1 0 + fB i.1 1 + fB i.1 2
  rw [sum_fin_three hm, hB, hB, hB, mul_one, mul_one, mul_one]

lemma quad_eval_three {m : ℕ} (hm : m = 3) (C : Matrix (Fin m) (Fin m) ℝ)
    (fC : ℕ → ℕ → ℝ) (hC : ∀ i j, C i j = fC i.1 j.1)
    (v : Fin m → ℝ) (fv : ℕ → ℝ) (hv : ∀ i, v i = fv i.1) :
    v ⬝ᵥ C.mulVec v
      = fv 0 * (fC 0 0 * fv 0 + fC 0 1 * fv 1 + fC 0 2 * fv 2)
      + fv 1 * (fC 1 0 * fv 0 + fC 1 1 * fv 1 + fC 1 2 * fv 2)
      + fv 2 * (fC 2 0 * fv 0 + fC 2 1 * fv 1 + fC 2 2 * fv 2) := by
  subst hm
  rw [show v ⬝ᵥ C.mulVec v = ∑ i, v i * ∑ j, C i j * v j from rfl]
  simp only [Fin.sum_univ_three, hC, hv, Fin.val_zero, Fin.val_one, Fin.val_two]

lemma quad_eval_two {m : ℕ} (hm : m = 2) (C : Matrix (Fin m) (Fin m) ℝ)
    (fC : ℕ → ℕ → ℝ) (hC : ∀ i j, C i j = fC i.1 j.1)
    (v : Fin m → ℝ) (fv : ℕ → ℝ) (hv : ∀ i, v i = fv i.1) :
    v ⬝ᵥ C.mulVec v
      = fv 0 * (fC 0 0 * fv 0 + fC 0 1 * fv 1)
      + fv 1 * (fC 1 0 * fv 0 + fC 1 1 * fv 1) := by
  subst hm
  rw [show v ⬝ᵥ C.mulVec v = ∑ i, v i * ∑ j, C i j * v j from rfl]
  simp only [Fin.sum_univ_two, hC, hv, Fin.val_zero, Fin.val_one]

lemma quad_eval_one {m : ℕ} (hm : m = 1) (C : Matrix (Fin m) (Fin m) ℝ)
    (fC : ℕ → ℕ → ℝ) (hC : ∀ i j, C i j = fC i.1 j.1)
    (v : Fin m → ℝ) (fv : ℕ → ℝ) (hv : ∀ i, v i = fv i.1) :
    v ⬝ᵥ C.mulVec v = fv 0 * (fC 0 0 * fv 0) := by
  subst hm
  rw [show v ⬝ᵥ C.mulVec v = ∑ i, v i * ∑ j, C i j * v j from rfl]
  simp only [Fin.sum_univ_one, hC, hv, Fin.val_zero]

/-! ### Evaluations on the concrete instances -/

lemma validDf_dfSingle : ValidDf dfSingle := by
  refine ⟨by decide, by decide, by decide, ?_⟩
  intro i
  fin_cases i
  norm_num [ReturnsDf.sampleCov, ReturnsDf.entry, ReturnsDf.colMean,
    ReturnsDf.colList, ReturnsDf.T, dfSingle, Finset.sum_range_succ]

lemma pinvSingle_entry : ∀ i j, pinvSingle i j = pinvSingleFn i.1 j.1 :=
  fun _ _ => rfl

lemma covMatrix_dfSingle_entry :
    ∀ i j, covMatrix dfSingle i j = covSingleFn i.1 j.1 := by
  intro i j
  fin_cases i <;> fin_cases j <;>
    norm_num [covMatrix, covSingleFn, ReturnsDf.covA, ReturnsDf.sampleCov,
      ReturnsDf.entry, ReturnsDf.colMean, ReturnsDf.colList, ReturnsDf.T,
      dfSingle, Finset.sum_range_succ]

lemma n_dfSingle : dfSingle.n = 1 := rfl

lemma penrose_dfSingle : IsMoorePenrose (covMatrix dfSingle) pinvSingle := by
  have hP := pinvSingle_entry
  have hA := covMatrix_dfSingle_entry
  have hAP : ∀ i j, (covMatrix dfSingle * pinvSingle) i j
      = oneEntryFn i.1 j.1 := by
    intro i j
    rw [matMul_entry_one n_dfSingle (covMatrix dfSingle) pinvSingle
      covSingleFn pinvSingleFn hA hP]
    fin_cases i <;> fin_cases j <;>
      norm_num [covSingleFn, pinvSingleFn, oneEntryFn]
  have hPA : ∀ i j, (pinvSingle * covMatrix dfSingle) i j
      = oneEntryFn i.1 j.1 := by
    intro i j
    rw [matMul_entry_one n_dfSingle pinvSingle (covMatrix dfSingle)
      pinvSingleFn covSingleFn hP hA]
    fin_cases i <;> fin_cases j <;>
      norm_num [covSingleFn, pinvSingleFn, oneEntryFn]
  refine ⟨?_, ?_, ?_, ?_⟩
  · ext i j
    rw [matMul_entry_one n_dfSingle (covMatrix dfSingle * pinvSingle)
      (covMatrix dfSingle) oneEntryFn covSingleFn hAP hA, hA]
    fin_cases i <;> fin_cases j <;> norm_num [covSingleFn, oneEntryFn]
  · ext i j
    rw [matMul_entry_one n_dfSingle (pinvSingle * covMatrix dfSingle)
      pinvSingle oneEntryFn pinvSingleFn hPA hP, hP]
    fin_cases i <;> fin_cases j <;> norm_num [pinvSingleFn, oneEntryFn]
  · ext i j
    rw [Matrix.transpose_apply, hAP, hAP]
    fin_cases i <;> fin_cases j <;> norm_num [oneEntryFn]
  · ext i j
    rw [Matrix.transpose_apply, hPA, hPA]
    fin_cases i <;> fin_cases j <;> norm_num [oneEntryFn]

lemma sum_pinvSingle_ne :
    (∑ i, pinvSingle.mulVec (fun _ => 1) i) ≠ 0 := by
  rw [sum_fin_one n_dfSingle,
    mulVec_ones_entry_one n_dfSingle pinvSingle pinvSingleFn pinvSingle_entry]
  norm_num [pinvSingleFn]

lemma validDf_dfAnti : ValidDf dfAnti := by
  refine ⟨by decide, by decide, by decide, ?_⟩
  intro i
  fin_cases i <;>
    norm_num [ReturnsDf.sampleCov, ReturnsDf.entry, ReturnsDf.colMean,
      ReturnsDf.colList, ReturnsDf.T, dfAnti, Finset.sum_range_succ]

lemma n_dfAnti : dfAnti.n = 2 := rfl

lemma covMatrix_dfAnti_entry :
    ∀ i j, covMatrix dfAnti i j = covAntiFn i.1 j.1 := by
  intro i j
  fin_cases i <;> fin_cases j <;>
    norm_num [covMatrix, covAntiFn, ReturnsDf.covA, ReturnsDf.sampleCov,
      ReturnsDf.entry, ReturnsDf.colMean, ReturnsDf.colList, ReturnsDf.T,
      dfAnti, Finset.sum_range_succ]

lemma pinvAnti_entry : ∀ i j, pinvAnti i j = pinvAntiFn i.1 j.1 :=
  fun _ _ => rfl

lemma penrose_dfAnti : IsMoorePenrose (covMatrix dfAnti) pinvAnti := by
  have hP := pinvAnti_entry
  have hA := covMatrix_dfAnti_entry
  have hAP : ∀ i j, (covMatrix dfAnti * pinvAnti) i j = apAntiFn i.1 j.1 := by
    intro i j
    rw [matMul_entry_two n_dfAnti (covMatrix dfAnti) pinvAnti
      covAntiFn pinvAntiFn hA hP]
    fin_cases i <;> fin_cases j <;>
      norm_num [covAntiFn, pinvAntiFn, apAntiFn]
  have hPA : ∀ i j, (pinvAnti * covMatrix dfAnti) i j = apAntiFn i.1 j.1 := by
    intro i j
    rw [matMul_entry_two n_dfAnti pinvAnti (covMatrix dfAnti)
      pinvAntiFn covAntiFn hP hA]
    fin_cases i <;> fin_cases j <;>
      norm_num [covAntiFn, pinvAntiFn, apAntiFn]
  refine ⟨?_, ?_, ?_, ?_⟩
  · ext i j
    rw [matMul_entry_two n_dfAnti (covMatrix dfAnti * pinvAnti)
      (covMatrix dfAnti) apAntiFn covAntiFn hAP hA, hA]
    fin_cases i <;> fin_cases j <;> norm_num [covAntiFn, apAntiFn]
  · ext i j
    rw [matMul_entry_two n_dfAnti (pinvAnti * covMatrix dfAnti)
      pinvAnti apAntiFn pinvAntiFn hPA hP, hP]
    fin_cases i <;> fin_cases j <;> norm_num [pinvAntiFn, apAntiFn]
  · ext i j
    rw [Matrix.transpose_apply, hAP, hAP]
    fin_cases i <;> fin_cases j <;> norm_num [apAntiFn]
  · ext i j
    rw [Matrix.transpose_apply, hPA, hPA]
    fin_cases i <;> fin_cases j <;> norm_num [apAntiFn]

lemma pinvAnti_mulVec_ones :
    pinvAnti.mulVec (fun _ => 1) = fun _ => 0 := by
  funext i
  rw [mulVec_ones_entry_two n_dfAnti pinvAnti pinvAntiFn pinvAnti_entry]
  fin_cases i <;> norm_num [pinvAntiFn]

lemma validDf_dfDiag : ValidDf dfDiag := by
  refine ⟨by decide, by decide, by decide, ?_⟩
  intro i
  fin_cases i <;>
    norm_num [ReturnsDf.sampleCov, ReturnsDf.entry, ReturnsDf.colMean,
      ReturnsDf.colList, ReturnsDf.T, dfDiag, Finset.sum_range_succ]

lemma n_dfDiag : dfDiag.n = 2 := rfl

lemma covMatrix_dfDiag_entry :
    ∀ i j, covMatrix dfDiag i j = covDiagFn i.1 j.1 := by
  intro i j
  fin_cases i <;> fin_cases j <;>
    norm_num [covMatrix, covDiagFn, ReturnsDf.covA, ReturnsDf.sampleCov,
      ReturnsDf.entry, ReturnsDf.colMean, ReturnsDf.colList, ReturnsDf.T,
      dfDiag, Finset.sum_range_succ]

lemma pinvDiag_entry : ∀ i j, pinvDiag i j = pinvDiagFn i.1 j.1 :=
  fun _ _ => rfl

lemma inv_dfDiag_right : covMatrix dfDiag * pinvDiag = 1 := by
  ext i j
  rw [matMul_entry_two n_dfDiag (covMatrix dfDiag) pinvDiag covDiagFn
    pinvDiagFn covMatrix_dfDiag_entry pinvDiag_entry]
  fin_cases i <;> fin_cases j <;>
    norm_num [covDiagFn, pinvDiagFn, Matrix.one_apply, Fin.ext_iff]

lemma inv_dfDiag_left : pinvDiag * covMatrix dfDiag = 1 := by
  ext i j
  rw [matMul_entry_two n_dfDiag pinvDiag (covMatrix dfDiag) pinvDiagFn
    covDiagFn pinvDiag_entry covMatrix_dfDiag_entry]
  fin_cases i <;> fin_cases j <;>
    norm_num [covDiagFn, pinvDiagFn, Matrix.one_apply, Fin.ext_iff]

lemma pinvDiag_mulVec_ones :
    pinvDiag.mulVec (fun _ => 1) = fun _ => 10000 / 126 := by
  funext i
  rw [mulVec_ones_entry_two n_dfDiag pinvDiag pinvDiagFn pinvDiag_entry]
  fin_cases i <;> norm_num [pinvDiagFn]

lemma validDf_dfClip : ValidDf dfClip := by
  refine ⟨by decide, by decide, by decide, ?_⟩
  intro i
  fin_cases i <;>
    norm_num [ReturnsDf.sampleCov, ReturnsDf.entry, ReturnsDf.colMean,
      ReturnsDf.colList, ReturnsDf.T, dfClip, Finset.sum_range_succ]

lemma n_dfClip : dfClip.n = 3 := rfl

lemma covMatrix_dfClip_entry :
    ∀ i j, covMatrix dfClip i j = covClipFn i.1 j.1 := by
  intro i j
  fin_cases i <;> fin_cases j <;>
    norm_num [covMatrix, covClipFn, ReturnsDf.covA, ReturnsDf.sampleCov,
      ReturnsDf.entry, ReturnsDf.colMean, ReturnsDf.colList, ReturnsDf.T,
      dfClip, Finset.sum_range_succ]

lemma pinvClip_entry : ∀ i j, pinvClip i j = pinvClipFn i.1 j.1 :=
  fun _ _ => rfl

lemma inv_dfClip_right : covMatrix dfClip * pinvClip = 1 := by
  ext i j
  rw [matMul_entry_three n_dfClip (covMatrix dfClip) pinvClip covClipFn
    pinvClipFn covMatrix_dfClip_entry pinvClip_entry]
  fin_cases i <;> fin_cases j <;>
    norm_num [covClipFn, pinvClipFn, Matrix.one_apply, Fin.ext_iff]

lemma pinvClip_mulVec_ones :
    ∀ i, pinvClip.mulVec (fun _ => 1) i = uClipFn i.1 := by
  intro i
  rw [mulVec_ones_entry_three n_dfClip pinvClip pinvClipFn pinvClip_entry]
  fin_cases i <;> norm_num [pinvClipFn, uClipFn]

lemma validDf_dfGain : ValidDf dfGain := by
  refine ⟨by decide, by decide, by decide, ?_⟩
  intro i
  fin_cases i
  norm_num [ReturnsDf.sampleCov, ReturnsDf.entry, ReturnsDf.colMean,
    ReturnsDf.colList, ReturnsDf.T, dfGain, Finset.sum_range_succ]

/-! ## Claim theorems -/

/-- **C2** (amended).  Over any valid return frame whose annualized covariance
matrix is invertible — `P` its two-sided inverse, which is then exactly
`np.linalg.pinv(cov)` — and whose closed-form minimum-variance weights
`P·1 / (1ᵀ·P·1)` are all non-negative (the no-short clipping is inactive),
the `annual_volatility` reported by `calculate_portfolio_metrics` for the
`minimum_variance` weights is at most the one reported for the
`equal_weight` weights.  Without these hypotheses the original claim is
false: `c2_counterexample` exhibits a valid frame with invertible covariance
on which clipping activates and minimum variance comes out strictly riskier
than equal weight. -/
theorem c2_minvar_vol_le_equal_weight (o : PortfolioOptimizer)
    (hv : ValidDf o.returns)
    (P : Matrix (Fin o.returns.n) (Fin o.returns.n) ℝ)
    (hPl : P * covMatrix o.returns = 1) (hPr : covMatrix o.returns * P = 1)
    (hnn : ∀ i, 0 ≤ P.mulVec (fun _ => 1) i / ∑ j, P.mulVec (fun _ => 1) j) :
    (calculate_portfolio_metrics o
        (minimum_variance o.returns P)).annual_volatility
      ≤ (calculate_portfolio_metrics o
        (equal_weight o.returns)).annual_volatility := by
  have hspos : 0 < ∑ j, P.mulVec (fun _ => 1) j :=
    sum_pinv_ones_pos o.returns hv.nrows hv.nassets P hPr
  have hsum3 : (∑ j, max (P.mulVec (fun _ => 1) j
      / ∑ k, P.mulVec (fun _ => 1) k) 0) = 1 := by
    calc (∑ j, max (P.mulVec (fun _ => 1) j / ∑ k, P.mulVec (fun _ => 1) k) 0)
        = ∑ j, P.mulVec (fun _ => 1) j / ∑ k, P.mulVec (fun _ => 1) k :=
          Finset.sum_congr rfl (fun j _ => max_eq_left (hnn j))
      _ = 1 := by rw [← Finset.sum_div, div_self (ne_of_gt hspos)]
  have hclip : minimum_variance o.returns P
      = mkWeightsF o.returns (fun i =>
          P.mulVec (fun _ => 1) i / ∑ j, P.mulVec (fun _ => 1) j) := by
    rw [minimum_variance_eq]
    congr 1
    funext i
    rw [hsum3, max_eq_left (hnn i), div_one]
  have hwv : wvec o.returns (minimum_variance o.returns P)
      = fun i => P.mulVec (fun _ => 1) i / ∑ j, P.mulVec (fun _ => 1) j := by
    rw [hclip]
    exact wvec_mkWeightsF _ _ hv.nodup
  have hwe := wvec_equal_weight o.returns hv.nodup
  have hq := minvar_quadForm_le o.returns hv.nrows hv.nassets P hPr
    (fun _ => 1 / (o.returns.n : ℝ)) (sum_equal_vec o.returns hv.nassets)
  have hbr : ((∑ j, P.mulVec (fun _ => 1) j)⁻¹ • P.mulVec (fun _ => 1))
      = fun i => P.mulVec (fun _ => 1) i / ∑ j, P.mulVec (fun _ => 1) j := by
    funext i
    rw [Pi.smul_apply, smul_eq_mul, ← div_eq_inv_mul]
  rw [annual_volatility_eq, annual_volatility_eq, hwv, hwe]
  apply Real.sqrt_le_sqrt
  rw [← hbr]
  exact hq

/-- **C2** counterexample: `dfClip` is a valid return frame (four periods,
three assets, invertible annualized covariance, `pinvClip` its inverse and
hence its `np.linalg.pinv`), yet the metrics report the `minimum_variance`
portfolio (weights `(0, 1, 0)` after clipping) strictly *more* volatile than
equal weight: `√(21/1250) > √(49/3750)`.  The claim "minimum variance is
never riskier than equal weight on its own training data" is therefore
false as stated. -/
theorem c2_counterexample :
    ValidDf dfClip
    ∧ covMatrix dfClip * pinvClip = 1
    ∧ ¬ ((calculate_portfolio_metrics oClip
          (minimum_variance dfClip pinvClip)).annual_volatility
        ≤ (calculate_portfolio_metrics oClip
          (equal_weight dfClip)).annual_volatility) := by
  have hvd : ValidDf dfClip := validDf_dfClip
  have hinv : covMatrix dfClip * pinvClip = 1 := inv_dfClip_right
  have hav : ∀ w, (calculate_portfolio_metrics oClip w).annual_volatility
      = Real.sqrt (wvec dfClip w ⬝ᵥ (covMatrix dfClip).mulVec (wvec dfClip w)) :=
    fun _ => rfl
  have hu : ∀ i, pinvClip.mulVec (fun _ => 1) i = uClipFn i.1 :=
    pinvClip_mulVec_ones
  have hs : (∑ j, pinvClip.mulVec (fun _ => 1) j) = 2500/21 := by
    rw [sum_fin_three n_dfClip]
    simp only [hu]
    norm_num [uClipFn]
  have hs3 : (∑ j, max (pinvClip.mulVec (fun _ => 1) j
      / ∑ k, pinvClip.mulVec (fun _ => 1) k) 0) = 3/2 := by
    rw [sum_fin_three n_dfClip, hs]
    simp only [hu]
    norm_num [uClipFn, max_def]
  have hwf : wvec dfClip (minimum_variance dfClip pinvClip)
      = fun i => wMinClipFn i.1 := by
    rw [minimum_variance_eq, wvec_mkWeightsF _ _ hvd.nodup]
    funext i
    rw [hs3, hs, hu]
    fin_cases i <;> norm_num [uClipFn, wMinClipFn, max_def]
  have hvol1 : (calculate_portfolio_metrics oClip
      (minimum_variance dfClip pinvClip)).annual_volatility
      = Real.sqrt (21/1250) := by
    rw [hav, hwf]
    congr 1
    rw [quad_eval_three n_dfClip _ covClipFn covMatrix_dfClip_entry
      _ wMinClipFn (fun _ => rfl)]
    norm_num [covClipFn, wMinClipFn]
  have hwe : wvec dfClip (equal_weight dfClip) = fun i => thirdFn i.1 := by
    rw [wvec_equal_weight dfClip hvd.nodup]
    funext i
    norm_num [thirdFn, n_dfClip]
  have hvol2 : (calculate_portfolio_metrics oClip
      (equal_weight dfClip)).annual_volatility
      = Real.sqrt (49/3750) := by
    rw [hav, hwe]
    congr 1
    rw [quad_eval_three n_dfClip _ covClipFn covMatrix_dfClip_entry
      _ thirdFn (fun _ => rfl)]
    norm_num [covClipFn, thirdFn]
  refine ⟨hvd, hinv, ?_⟩
  rw [hvol1, hvol2, not_le]
  exact Real.sqrt_lt_sqrt (by norm_num) (by norm_num)

/-- Witness for `c2_minvar_vol_le_equal_weight`: on `dfDiag` (three periods,
two assets, invertible covariance, clipping inactive) every hypothesis holds
and the conclusion follows by the theorem. -/
theorem c2_minvar_vol_le_equal_weight_witness :
    ValidDf dfDiag
    ∧ pinvDiag * covMatrix dfDiag = 1
    ∧ covMatrix dfDiag * pinvDiag = 1
    ∧ (∀ i, 0 ≤ pinvDiag.mulVec (fun _ => 1) i
        / ∑ j, pinvDiag.mulVec (fun _ => 1) j)
    ∧ (calculate_portfolio_metrics oDiag
        (minimum_variance dfDiag pinvDiag)).annual_volatility
      ≤ (calculate_portfolio_metrics oDiag
        (equal_weight dfDiag)).annual_volatility := by
  have h1 : ValidDf dfDiag := validDf_dfDiag
  have h2 : pinvDiag * covMatrix dfDiag = 1 := inv_dfDiag_left
  have h3 : covMatrix dfDiag * pinvDiag = 1 := inv_dfDiag_right
  have hu : ∀ k, pinvDiag.mulVec (fun _ => 1) k = 10000 / 126 :=
    fun k => congrFun pinvDiag_mulVec_ones k
  have h4 : ∀ i, 0 ≤ pinvDiag.mulVec (fun _ => 1) i
      / ∑ j, pinvDiag.mulVec (fun _ => 1) j := by
    intro i
    rw [sum_fin_two n_dfDiag]
    simp only [hu]
    norm_num
  exact ⟨h1, h2, h3, h4, c2_minvar_vol_le_equal_weight oDiag h1 pinvDiag h2 h3 h4⟩

/-- **C1** (amended).  For every valid return matrix (distinct tickers, at
least one asset, at least two rows, no zero-variance asset), each strategy
returns a weight map whose keys are exactly the asset universe, with
non-negative weights summing to exactly 1 (hence within 1e-6); in the
single-asset case every strategy assigns the asset weight exactly 1.  As the
source forces, `minimum_variance` takes the pseudo-inverse `P` (pinned down
by the Penrose equations) and additionally needs `1ᵀ·P·1 ≠ 0` — otherwise
its weights are degenerate (`c1_counterexample`) — and `maximum_sharpe` is
deterministic in its random draws, assumed non-negative with positive sums
(true with probability 1 for `np.random.random`) and such that at least one
draw's IEEE sharpe score beats the initial `best_sharpe = -inf` (otherwise
`best_weights` stays `None` and the source raises `TypeError`; in the
single-asset case the positive variance makes every draw score finite, so
only non-emptiness is needed there). -/
theorem c1_strategy_weight_invariants (o : PortfolioOptimizer)
    (hv : ValidDf o.returns) :
    WeightProps o.returns (equal_weight o.returns)
    ∧ WeightProps o.returns (risk_parity o.returns)
    ∧ (∀ P : Matrix (Fin o.returns.n) (Fin o.returns.n) ℝ,
        IsMoorePenrose (covMatrix o.returns) P →
        (∑ i, P.mulVec (fun _ => 1) i) ≠ 0 →
        WeightProps o.returns (minimum_variance o.returns P))
    ∧ (∀ draws : List (Fin o.returns.n → ℝ),
        (∀ d ∈ draws, (∀ i, 0 ≤ d i) ∧ 0 < ∑ i, d i) →
        (∃ d ∈ draws, ∃ s, (drawScore o d).1 = some s ∧ (⊥ : EReal) < s) →
        ∃ ws, maximum_sharpe o draws = some ws ∧ WeightProps o.returns ws)
    ∧ (∀ lb, WeightProps o.returns (momentum_weighted o.returns lb))
    ∧ (∀ ma, WeightProps o.returns (kelly_criterion o.returns ma))
    ∧ (∀ c, o.returns.cols = [c] →
        equal_weight o.returns = [(c, 1)]
        ∧ risk_parity o.returns = [(c, 1)]
        ∧ (∀ P : Matrix (Fin o.returns.n) (Fin o.returns.n) ℝ,
            IsMoorePenrose (covMatrix o.returns) P →
            minimum_variance o.returns P = [(c, 1)])
        ∧ (∀ draws : List (Fin o.returns.n → ℝ), draws ≠ [] →
            (∀ d ∈ draws, (∀ i, 0 ≤ d i) ∧ 0 < ∑ i, d i) →
            maximum_sharpe o draws = some [(c, 1)])
        ∧ (∀ lb, momentum_weighted o.returns lb = [(c, 1)])
        ∧ (∀ ma, kelly_criterion o.returns ma = [(c, 1)])) := by
  refine ⟨equal_weight_props _ hv.nassets, risk_parity_props _ hv,
    fun P _ hs1 => minimum_variance_props _ P hs1,
    fun draws hdr hacc => maximum_sharpe_props o draws hdr hacc,
    fun lb => momentum_weighted_props _ hv.nassets lb,
    fun ma => kelly_criterion_props _ hv.nassets ma,
    fun c hc => ⟨equal_weight_single _ c hc, risk_parity_single _ hv c hc,
      fun P hp => minimum_variance_single _ hv P hp c hc,
      fun draws hne hdr => ?_,
      fun lb => momentum_weighted_single _ c hc lb,
      fun ma => kelly_criterion_single _ c hc ma⟩⟩
  obtain ⟨d, hd⟩ := List.exists_mem_of_ne_nil draws hne
  exact maximum_sharpe_single o c hc draws hdr
    ⟨d, hd, single_draw_accepted o hv c hc d (hdr d hd).2⟩

/-- **C1** counterexample: `dfAnti` satisfies every precondition of the
claim (two assets, two rows, both sample variances nonzero), `pinvAnti` is
the Moore–Penrose pseudo-inverse of its covariance matrix, yet
`minimum_variance` returns weights summing to 0 — in the source the weights
are `NaN` (`pinv(cov) @ ones` is the zero vector, and `0/0` division) — so
the weight map does not sum to 1 within 1e-6. -/
theorem c1_counterexample :
    ValidDf dfAnti
    ∧ IsMoorePenrose (covMatrix dfAnti) pinvAnti
    ∧ ((minimum_variance dfAnti pinvAnti).map Prod.snd).sum = 0
    ∧ ¬ |((minimum_variance dfAnti pinvAnti).map Prod.snd).sum - 1|
        ≤ 1e-6 := by
  have hsum : ((minimum_variance dfAnti pinvAnti).map Prod.snd).sum = 0 := by
    rw [minimum_variance_eq, sum_mkWeightsF, pinvAnti_mulVec_ones]
    simp
  refine ⟨validDf_dfAnti, penrose_dfAnti, hsum, ?_⟩
  rw [hsum]
  norm_num

/-- Witness for `c1_strategy_weight_invariants` on the single-asset frame
`dfSingle` with pseudo-inverse `pinvSingle` and one random draw `drawHalf`:
all hypotheses hold concretely and all six strategies return `[("A", 1)]`. -/
theorem c1_strategy_weight_invariants_witness :
    ValidDf dfSingle
    ∧ IsMoorePenrose (covMatrix dfSingle) pinvSingle
    ∧ (∑ i, pinvSingle.mulVec (fun _ => 1) i) ≠ 0
    ∧ ([drawHalf] : List (Fin dfSingle.n → ℝ)) ≠ []
    ∧ (∀ d ∈ [drawHalf], (∀ i, 0 ≤ d i) ∧ 0 < ∑ i, d i)
    ∧ (∃ d ∈ ([drawHalf] : List (Fin dfSingle.n → ℝ)),
        ∃ s, (drawScore oSingle d).1 = some s ∧ (⊥ : EReal) < s)
    ∧ WeightProps dfSingle (equal_weight dfSingle)
    ∧ WeightProps dfSingle (risk_parity dfSingle)
    ∧ WeightProps dfSingle (minimum_variance dfSingle pinvSingle)
    ∧ (∃ ws, maximum_sharpe oSingle [drawHalf] = some ws
        ∧ WeightProps dfSingle ws)
    ∧ WeightProps dfSingle (momentum_weighted dfSingle 90)
    ∧ WeightProps dfSingle (kelly_criterion dfSingle (0.25 : ℝ))
    ∧ equal_weight dfSingle = [("A", 1)]
    ∧ risk_parity dfSingle = [("A", 1)]
    ∧ minimum_variance dfSingle pinvSingle = [("A", 1)]
    ∧ maximum_sharpe oSingle [drawHalf] = some [("A", 1)]
    ∧ momentum_weighted dfSingle 90 = [("A", 1)]
    ∧ kelly_criterion dfSingle (0.25 : ℝ) = [("A", 1)] := by
  have hdr : ∀ d ∈ ([drawHalf] : List (Fin dfSingle.n → ℝ)),
      (∀ i, 0 ≤ d i) ∧ 0 < ∑ i, d i := by
    intro d hd
    rw [List.mem_singleton] at hd
    subst hd
    constructor
    · intro i
      norm_num [drawHalf]
    · rw [sum_fin_one n_dfSingle]
      norm_num [drawHalf]
  have hne : ([drawHalf] : List (Fin dfSingle.n → ℝ)) ≠ [] := by
    simp
  have hacc : ∃ d ∈ ([drawHalf] : List (Fin dfSingle.n → ℝ)),
      ∃ s, (drawScore oSingle d).1 = some s ∧ (⊥ : EReal) < s :=
    ⟨drawHalf, List.mem_singleton_self _,
      single_draw_accepted oSingle validDf_dfSingle "A" rfl drawHalf
        (hdr drawHalf (List.mem_singleton_self _)).2⟩
  obtain ⟨he, hrp, hmv, hms, hmo, hke, hsingle⟩ :=
    c1_strategy_weight_invariants oSingle validDf_dfSingle
  obtain ⟨hse, hsrp, hsmv, hsms, hsmo, hske⟩ := hsingle "A" rfl
  exact ⟨validDf_dfSingle, penrose_dfSingle, sum_pinvSingle_ne, hne, hdr, hacc,
    he, hrp, hmv pinvSingle penrose_dfSingle sum_pinvSingle_ne,
    hms [drawHalf] hdr hacc, hmo 90, hke (0.25 : ℝ),
    hse, hsrp, hsmv pinvSingle penrose_dfSingle,
    hsms [drawHalf] hne hdr, hsmo 90, hske (0.25 : ℝ)⟩

lemma zero_asset_strategies (o : PortfolioOptimizer)
    (hc : o.returns.cols = []) :
    equal_weight o.returns = []
    ∧ risk_parity o.returns = []
    ∧ (∀ P : Matrix (Fin o.returns.n) (Fin o.returns.n) ℝ,
        minimum_variance o.returns P = [])
    ∧ (∀ lb, momentum_weighted o.returns lb = [])
    ∧ (∀ ma, kelly_criterion o.returns ma = [])
    ∧ (0 < o.riskFreeRate →
        ∀ draws : List (Fin o.returns.n → ℝ),
          maximum_sharpe o draws = none) := by
  have hmk : ∀ w : Fin o.returns.n → ℝ, mkWeightsF o.returns w = [] := by
    intro w
    unfold mkWeightsF
    rw [hc]
    rfl
  have heq : equal_weight o.returns = [] := by
    unfold equal_weight
    rw [hc]
    rfl
  refine ⟨heq, ?_, ?_, ?_, ?_, ?_⟩
  · rw [risk_parity_eq]
    exact hmk _
  · intro P
    rw [minimum_variance_eq]
    exact hmk _
  · intro lb
    by_cases h : (Finset.univ.filter (fun i : Fin o.returns.n =>
        0 < ((o.returns.colList i).drop (o.returns.T - lb)).sum)).card = 0
    · rw [momentum_weighted_eq_fallback _ _ h]
      exact heq
    · rw [momentum_weighted_eq_pos _ _ h]
      exact hmk _
  · intro ma
    by_cases h : 0 < ∑ i : Fin o.returns.n, rawKelly (o.returns.colList i) ma
    · rw [kelly_criterion_eq_pos _ _ h]
      exact hmk _
    · rw [kelly_criterion_eq_fallback _ _ h]
      exact heq
  · intro hrf draws
    have hn0 : o.returns.n = 0 := by
      show o.returns.cols.length = 0
      rw [hc]
      rfl
    haveI : IsEmpty (Fin o.returns.n) := ⟨fun i => absurd i.2 (by omega)⟩
    have hscore : ∀ d : Fin o.returns.n → ℝ, (drawScore o d).1 = some ⊥ := by
      intro d
      have hret : (fun i => d i / ∑ j, d j) ⬝ᵥ meanVec o.returns = 0 := by
        rw [Matrix.dotProduct, Finset.univ_eq_empty, Finset.sum_empty]
      have hquad : (fun i => d i / ∑ j, d j) ⬝ᵥ
          (covMatrix o.returns).mulVec (fun i => d i / ∑ j, d j) = 0 := by
        rw [Matrix.dotProduct, Finset.univ_eq_empty, Finset.sum_empty]
      unfold drawScore
      dsimp only
      rw [hquad, Real.sqrt_zero, hret]
      rw [if_neg (lt_irrefl (0 : ℝ))]
      rw [if_pos (show (0 : ℝ) - o.riskFreeRate < 0 from by linarith)]
    have hstepn : ∀ d, maxSharpeStep o none d = none := by
      intro d
      unfold maxSharpeStep
      rw [hscore d]
      dsimp only
      rw [if_neg (lt_irrefl (⊥ : EReal))]
    have hfold : ∀ ds : List (Fin o.returns.n → ℝ),
        ds.foldl (maxSharpeStep o) none = none := by
      intro ds
      induction ds with
      | nil => rfl
      | cons d rest ih =>
          rw [List.foldl_cons, hstepn d]
          exact ih
    unfold maximum_sharpe maxSharpeFold
    rw [hfold draws]
    rfl

/-- **C3** (amended).  The optimizer performs no insufficient-data
validation at all: its constructor only caches the mean vector and
covariance matrix, and on a frame with zero assets five of the six
strategies still run and return the empty weight map (Python: `{}`) instead
of signalling an error, while `maximum_sharpe` crashes accidentally: for a
positive risk-free rate every draw scores `(0.0 - rf)/0.0 = -inf`, so
`best_weights` stays `None` and `dict(zip([], None))` raises `TypeError`
(modelled `none`) — an unintended exception from the normal code path, not
a designed insufficient-data abort, and raised only when that one strategy
runs, not before.  The claimed insufficient-data check does not exist in
the code. -/
theorem c3_no_insufficient_data_check (o : PortfolioOptimizer)
    (hc : o.returns.cols = []) :
    equal_weight o.returns = []
    ∧ risk_parity o.returns = []
    ∧ (∀ P : Matrix (Fin o.returns.n) (Fin o.returns.n) ℝ,
        minimum_variance o.returns P = [])
    ∧ (∀ lb, momentum_weighted o.returns lb = [])
    ∧ (∀ ma, kelly_criterion o.returns ma = [])
    ∧ (0 < o.riskFreeRate →
        ∀ draws : List (Fin o.returns.n → ℝ), maximum_sharpe o draws = none) :=
  zero_asset_strategies o hc

/-- **C3** counterexample: on the zero-asset frame `dfEmpty` (which has two
aligned rows, so it falls under the claimed "zero assets" abort condition)
five strategies run to completion and return the empty weight map, and
`maximum_sharpe` ends with `best_weights = None` (the source's `TypeError`,
modelled `none`) — no insufficient-data error is signalled anywhere,
contradicting the claim that the failure occurs before any strategy
produces output. -/
theorem c3_counterexample :
    dfEmpty.cols = [] ∧ dfEmpty.T = 2
    ∧ equal_weight dfEmpty = []
    ∧ momentum_weighted dfEmpty 90 = []
    ∧ kelly_criterion dfEmpty (0.25 : ℝ) = []
    ∧ (∀ draws : List (Fin dfEmpty.n → ℝ),
        maximum_sharpe oEmpty draws = none) := by
  have h := zero_asset_strategies oEmpty rfl
  exact ⟨rfl, rfl, h.1, h.2.2.2.1 90, h.2.2.2.2.1 (0.25 : ℝ),
    h.2.2.2.2.2 (show (0 : ℝ) < oEmpty.riskFreeRate from by norm_num [oEmpty])⟩

/-- Witness for `c3_no_insufficient_data_check` at the concrete zero-asset
optimizer `oEmpty` (risk-free rate 0.06). -/
theorem c3_no_insufficient_data_check_witness :
    dfEmpty.cols = []
    ∧ (0 : ℝ) < oEmpty.riskFreeRate
    ∧ equal_weight dfEmpty = []
    ∧ risk_parity dfEmpty = []
    ∧ (∀ ma, kelly_criterion dfEmpty ma = [])
    ∧ (∀ draws : List (Fin dfEmpty.n → ℝ),
        maximum_sharpe oEmpty draws = none) := by
  have hrf : (0 : ℝ) < oEmpty.riskFreeRate := by norm_num [oEmpty]
  have h := c3_no_insufficient_data_check oEmpty rfl
  exact ⟨rfl, hrf, h.1, h.2.1, h.2.2.2.2.1, h.2.2.2.2.2 hrf⟩

lemma sum_neg_of_forall_neg :
    ∀ (l : List ℝ), l ≠ [] → (∀ x ∈ l, x < 0) → l.sum < 0
  | [], h, _ => absurd rfl h
  | x :: xs, _, h => by
      rw [List.sum_cons]
      rcases eq_or_ne xs [] with rfl | hne
      · simpa using h x (List.mem_cons_self x [])
      · have h1 := sum_neg_of_forall_neg xs hne
          (fun y hy => h y (List.mem_cons_of_mem x hy))
        have h2 := h x (List.mem_cons_self x xs)
        linarith

lemma avgLoss_pos (rs : List ℝ)
    (h : rs.filter (fun x => decide (x < 0)) ≠ []) :
    0 < |(rs.filter (fun x => decide (x < 0))).sum
      / ((rs.filter (fun x => decide (x < 0))).length : ℝ)| := by
  have hneg : ∀ x ∈ rs.filter (fun x => decide (x < 0)), x < 0 := by
    intro x hx
    exact of_decide_eq_true (List.mem_filter.mp hx).2
  have hsum : (rs.filter (fun x => decide (x < 0))).sum < 0 :=
    sum_neg_of_forall_neg _ h hneg
  have hlen : 0 < ((rs.filter (fun x => decide (x < 0))).length : ℝ) := by
    have h0 : (rs.filter (fun x => decide (x < 0))).length ≠ 0 :=
      fun h0 => h (List.eq_nil_of_length_eq_zero h0)
    exact_mod_cast Nat.pos_of_ne_zero h0
  exact abs_pos.mpr (ne_of_lt (div_neg_of_neg_of_pos hsum hlen))

lemma rawKelly_eq_formula (rs : List ℝ) (ma : ℝ)
    (hw : rs.filter (fun x => decide (0 < x)) ≠ [])
    (hl : rs.filter (fun x => decide (x < 0)) ≠ []) :
    rawKelly rs ma
      = max 0 (min
          (((((rs.filter (fun x => decide (0 < x))).length : ℝ) / (rs.length : ℝ))
              * (((rs.filter (fun x => decide (0 < x))).sum
                    / ((rs.filter (fun x => decide (0 < x))).length : ℝ))
                  / |(rs.filter (fun x => decide (x < 0))).sum
                    / ((rs.filter (fun x => decide (x < 0))).length : ℝ)|)
            - (1 - ((rs.filter (fun x => decide (0 < x))).length : ℝ)
                / (rs.length : ℝ)))
            / (((rs.filter (fun x => decide (0 < x))).sum
                    / ((rs.filter (fun x => decide (0 < x))).length : ℝ))
                  / |(rs.filter (fun x => decide (x < 0))).sum
                    / ((rs.filter (fun x => decide (x < 0))).length : ℝ)|))
          ma) := by
  have hrs : ¬ rs.length = 0 := by
    intro h0
    rw [List.eq_nil_of_length_eq_zero h0] at hw
    simp at hw
  have hwlen : ¬ (rs.filter (fun x => decide (0 < x))).length = 0 :=
    fun h0 => hw (List.eq_nil_of_length_eq_zero h0)
  have hllen : ¬ (rs.filter (fun x => decide (x < 0))).length = 0 :=
    fun h0 => hl (List.eq_nil_of_length_eq_zero h0)
  unfold rawKelly
  rw [if_neg hrs]
  dsimp only
  rw [if_neg (not_or.mpr ⟨hwlen, hllen⟩)]
  rw [if_neg (avgLoss_pos rs hl).ne']

lemma rawKelly_zero_of_no_losses (rs : List ℝ) (ma : ℝ)
    (hl : rs.filter (fun x => decide (x < 0)) = []) : rawKelly rs ma = 0 := by
  unfold rawKelly
  by_cases hrs : rs.length = 0
  · rw [if_pos hrs]
  · rw [if_neg hrs]
    dsimp only
    rw [if_pos (Or.inr (by rw [hl]; rfl))]

/-- **C4** (amended).  `kelly_criterion` computes per asset: raw weight 0
when the win set or loss set is empty or the average loss is zero;
otherwise `clip((p·b − q)/b, [0, max_allocation])` with `p` the win rate,
`q = 1 − p` and `b = avg_win/avg_loss`; the raw weights (always
non-negative) are normalized when their total is positive, and otherwise
the result falls back to `equal_weight`.  An asset with zero losses has raw
Kelly weight 0 and hence final weight 0 *whenever the total is positive*;
in the all-zero fallback it receives the equal-weight share instead (see
`c4_counterexample`), which is the one point on which the claim as stated
fails. -/
theorem c4_kelly_criterion (df : ReturnsDf) (hv : ValidDf df) (ma : ℝ) :
    (∀ i : Fin df.n,
      ((df.colList i).filter (fun x => decide (0 < x)) = []
        ∨ (df.colList i).filter (fun x => decide (x < 0)) = []) →
      rawKelly (df.colList i) ma = 0)
    ∧ (∀ i : Fin df.n,
        |((df.colList i).filter (fun x => decide (x < 0))).sum
          / (((df.colList i).filter (fun x => decide (x < 0))).length : ℝ)| = 0 →
        rawKelly (df.colList i) ma = 0)
    ∧ (∀ i : Fin df.n, ∀ wins losses : List ℝ,
        wins = (df.colList i).filter (fun x => decide (0 < x)) →
        losses = (df.colList i).filter (fun x => decide (x < 0)) →
        wins ≠ [] → losses ≠ [] →
        rawKelly (df.colList i) ma
          = max 0 (min
              ((((wins.length : ℝ) / ((df.colList i).length : ℝ))
                  * ((wins.sum / (wins.length : ℝ))
                      / |losses.sum / (losses.length : ℝ)|)
                - (1 - (wins.length : ℝ) / ((df.colList i).length : ℝ)))
                / ((wins.sum / (wins.length : ℝ))
                    / |losses.sum / (losses.length : ℝ)|))
              ma))
    ∧ (0 ≤ ∑ i : Fin df.n, rawKelly (df.colList i) ma)
    ∧ (0 < (∑ i : Fin df.n, rawKelly (df.colList i) ma) →
        kelly_criterion df ma = mkWeightsF df (fun i =>
          rawKelly (df.colList i) ma
            / ∑ j : Fin df.n, rawKelly (df.colList j) ma))
    ∧ (¬ 0 < (∑ i : Fin df.n, rawKelly (df.colList i) ma) →
        kelly_criterion df ma = equal_weight df)
    ∧ (∀ i : Fin df.n,
        (df.colList i).filter (fun x => decide (x < 0)) = [] →
        rawKelly (df.colList i) ma = 0
        ∧ (0 < (∑ j : Fin df.n, rawKelly (df.colList j) ma) →
            (kelly_criterion df ma).lookup (df.cols.get i) = some 0)) := by
  refine ⟨?_, ?_, ?_, ?_, ?_, ?_, ?_⟩
  · intro i hi
    rcases hi with hw | hl
    · unfold rawKelly
      by_cases hrs : (df.colList i).length = 0
      · rw [if_pos hrs]
      · rw [if_neg hrs]
        dsimp only
        rw [if_pos (Or.inl (by rw [hw]; rfl))]
    · exact rawKelly_zero_of_no_losses _ ma hl
  · intro i habs
    by_cases hl : (df.colList i).filter (fun x => decide (x < 0)) = []
    · exact rawKelly_zero_of_no_losses _ ma hl
    · exact absurd habs (avgLoss_pos _ hl).ne'
  · intro i wins losses hwins hlosses hw hl
    subst hwins
    subst hlosses
    exact rawKelly_eq_formula _ ma hw hl
  · exact Finset.sum_nonneg (fun i _ => rawKelly_nonneg _ _)
  · intro h
    exact kelly_criterion_eq_pos df ma h
  · intro h
    exact kelly_criterion_eq_fallback df ma h
  · intro i hl
    have h0 : rawKelly (df.colList i) ma = 0 :=
      rawKelly_zero_of_no_losses _ ma hl
    refine ⟨h0, fun hpos => ?_⟩
    rw [kelly_criterion_eq_pos df ma hpos,
      lookup_mkWeightsF df _ hv.nodup i, h0, zero_div]

/-- **C4** counterexample: the single asset of `dfGain` has only positive
returns (its loss set is empty), yet `kelly_criterion` assigns it final
weight 1, not 0 — all raw weights are 0, so the equal-weight fallback fires.
The claim's "an asset with zero losses in its history receives Kelly weight
0" is false for the final (post-fallback) weights. -/
theorem c4_counterexample :
    (dfGain.colList 0).filter (fun x => decide (x < 0)) = []
    ∧ kelly_criterion dfGain (0.25 : ℝ) = [("A", 1)]
    ∧ (1 : ℝ) ≠ 0 := by
  have hcol : dfGain.colList 0 = [1/100, 1/50] := rfl
  have hfil : (dfGain.colList 0).filter (fun x => decide (x < 0)) = [] := by
    rw [hcol, List.filter_cons_of_neg (by norm_num),
      List.filter_cons_of_neg (by norm_num), List.filter_nil]
  have hraw : ∀ i : Fin dfGain.n, rawKelly (dfGain.colList i) (0.25 : ℝ) = 0 := by
    intro i
    fin_cases i
    exact rawKelly_zero_of_no_losses _ _ hfil
  have htot : (∑ i : Fin dfGain.n, rawKelly (dfGain.colList i) (0.25 : ℝ)) = 0 := by
    rw [sum_fin_one (show dfGain.n = 1 from rfl)]
    exact hraw _
  have hkc : kelly_criterion dfGain (0.25 : ℝ) = [("A", 1)] := by
    rw [kelly_criterion_eq_fallback dfGain _ (by rw [htot]; exact lt_irrefl 0)]
    exact equal_weight_single dfGain "A" rfl
  exact ⟨hfil, hkc, one_ne_zero⟩

lemma projectRows_spec (initial rc r : ℝ) :
    ∀ (k year : ℕ) (current : ℝ),
      (projectRows initial rc r k year current).1.length = k
      ∧ (∀ idx, idx < k →
          (projectRows initial rc r k year current).1.getD idx (0, 0, 0)
            = (year + idx, current * (1 + r) ^ idx,
               initial * (1 + rc) ^ (year + idx)))
      ∧ (projectRows initial rc r k year current).2 = current * (1 + r) ^ k
  | 0, year, current => by
      refine ⟨rfl, ?_, ?_⟩
      · intro idx h
        exact absurd h (Nat.not_lt_zero idx)
      · show current = current * (1 + r) ^ 0
        rw [pow_zero, mul_one]
  | k + 1, year, current => by
      obtain ⟨ih1, ih2, ih3⟩ :=
        projectRows_spec initial rc r k (year + 1) (current * (1 + r))
      refine ⟨?_, ?_, ?_⟩
      · show ((year, current, initial * (1 + rc) ^ year) ::
            (projectRows initial rc r k (year + 1) (current * (1 + r))).1).length
          = k + 1
        rw [List.length_cons, ih1]
      · intro idx h
        match idx with
        | 0 =>
            show (year, current, initial * (1 + rc) ^ year)
              = (year + 0, current * (1 + r) ^ 0, initial * (1 + rc) ^ (year + 0))
            norm_num
        | j + 1 =>
            show (projectRows initial rc r k (year + 1)
                (current * (1 + r))).1.getD j (0, 0, 0) = _
            rw [ih2 j (by omega)]
            simp only [Prod.mk.injEq]
            refine ⟨by omega, by ring, ?_⟩
            rw [show year + 1 + j = year + (j + 1) from by omega]
      · show (projectRows initial rc r k (year + 1) (current * (1 + r))).2
          = current * (1 + r) ^ (k + 1)
        rw [ih3]
        ring

/-- **C6** (amended).  `project_growth` returns one projection row per
integer year from 0 to `years` inclusive, with row `y` holding
`(y, initial·(1+annual_return)^y, initial·(1+required_cagr)^y)` and
`required_cagr = (target/initial)^(1/years) − 1`; but `final_value`
carries one extra compounding step: it is
`initial·(1+annual_return)^(years+1)`, not the year-`years` projected value,
because the loop multiplies `current` once more after appending the last
row (see `c6_counterexample`). -/
theorem c6_project_growth (o : PortfolioOptimizer) (initial target : ℝ)
    (weights : List (String × ℝ)) (years : ℕ)
    (h0 : 0 < initial) (ht : 0 < target) (hy : 1 ≤ years) :
    (project_growth o initial target weights years).projections.length = years + 1
    ∧ (∀ y : ℕ, y ≤ years →
        (project_growth o initial target weights years).projections.getD y (0, 0, 0)
          = (y, initial
                * (1 + (calculate_portfolio_metrics o weights).annual_return) ^ y,
             initial
                * (1 + ((target / initial) ^ ((1 : ℝ) / (years : ℝ)) - 1)) ^ y))
    ∧ (project_growth o initial target weights years).final_value
        = initial
          * (1 + (calculate_portfolio_metrics o weights).annual_return) ^ (years + 1)
    ∧ (project_growth o initial target weights years).required_cagr
        = (target / initial) ^ ((1 : ℝ) / (years : ℝ)) - 1
    ∧ (project_growth o initial target weights years).projected_cagr
        = (calculate_portfolio_metrics o weights).annual_return := by
  obtain ⟨key1, key2, key3⟩ := projectRows_spec initial
    ((target / initial) ^ ((1 : ℝ) / (years : ℝ)) - 1)
    ((calculate_portfolio_metrics o weights).annual_return)
    (years + 1) 0 initial
  refine ⟨key1, ?_, ?_, rfl, rfl⟩
  · intro y hyy
    show (projectRows initial
        ((target / initial) ^ ((1 : ℝ) / (years : ℝ)) - 1)
        ((calculate_portfolio_metrics o weights).annual_return)
        (years + 1) 0 initial).1.getD y (0, 0, 0) = _
    rw [key2 y (by omega)]
    norm_num
  · show (projectRows initial
        ((target / initial) ^ ((1 : ℝ) / (years : ℝ)) - 1)
        ((calculate_portfolio_metrics o weights).annual_return)
        (years + 1) 0 initial).2 = _
    rw [key3]

lemma annual_return_oConst :
    (calculate_portfolio_metrics oConst [("A", (1 : ℝ))]).annual_return = 1 := by
  have h0 : (calculate_portfolio_metrics oConst [("A", (1 : ℝ))]).annual_return
      = wvec dfConst [("A", (1 : ℝ))] ⬝ᵥ meanVec dfConst := rfl
  rw [h0, Matrix.dotProduct, sum_fin_one (show dfConst.n = 1 from rfl)]
  have hw : wvec dfConst [("A", (1 : ℝ))] ⟨0, Nat.one_pos⟩ = 1 := by
    show (List.lookup ("A") [("A", (1 : ℝ))]).getD 0 = 1
    simp [List.lookup]
  have hT : ((dfConst.T : ℕ) : ℝ) = 2 := by
    show ((2 : ℕ) : ℝ) = 2
    norm_num
  have hm : meanVec dfConst ⟨0, Nat.one_pos⟩ = 1 := by
    show (252 : ℝ) * dfConst.colMean 0 = 1
    unfold ReturnsDf.colMean
    rw [show dfConst.colList 0 = [1/252, 1/252] from rfl, hT]
    norm_num
  rw [hw, hm, mul_one]

/-- **C6** counterexample: on `oConst` (one asset whose annualized return is
exactly 1, i.e. 100%) with full weight on that asset, `initial = 1`,
`target = 4` and `horizon_years = 1`, `final_value` is `4 = 1·(1+1)^2`,
while the claimed value at the horizon is `1·(1+1)^1 = 2`. -/
theorem c6_counterexample :
    (project_growth oConst 1 4 [("A", (1 : ℝ))] 1).final_value = 4
    ∧ 1 * (1 + (calculate_portfolio_metrics oConst [("A", (1 : ℝ))]).annual_return)
        ^ (1 : ℕ) = 2
    ∧ (4 : ℝ) ≠ 2 := by
  have har := annual_return_oConst
  have h1 : (project_growth oConst 1 4 [("A", (1 : ℝ))] 1).final_value
      = (projectRows 1 ((4 / 1) ^ ((1 : ℝ) / ((1 : ℕ) : ℝ)) - 1)
          ((calculate_portfolio_metrics oConst [("A", (1 : ℝ))]).annual_return)
          (1 + 1) 0 1).2 := rfl
  refine ⟨?_, ?_, by norm_num⟩
  · rw [h1, (projectRows_spec _ _ _ (1 + 1) 0 1).2.2, har]
    norm_num
  · rw [har]
    norm_num

/-- Witness for `c6_project_growth` at `oConst`, full weight on the single
asset, `initial = 1`, `target = 4`, `horizon_years = 1`. -/
theorem c6_project_growth_witness :
    (0 : ℝ) < 1 ∧ (0 : ℝ) < 4 ∧ (1 : ℕ) ≤ 1
    ∧ (project_growth oConst 1 4 [("A", (1 : ℝ))] 1).projections.length = 1 + 1
    ∧ (project_growth oConst 1 4 [("A", (1 : ℝ))] 1).final_value
        = 1 * (1 + (calculate_portfolio_metrics oConst
            [("A", (1 : ℝ))]).annual_return) ^ (1 + 1) := by
  have h := c6_project_growth oConst 1 4 [("A", (1 : ℝ))] 1
    one_pos (by norm_num) le_rfl
  exact ⟨one_pos, by norm_num, le_rfl, h.1, h.2.2.1⟩

/-- **C7**.  `project_growth` sets `years_to_target` to
`log(target/initial)/log(1 + annual_return)` when `annual_return > 0` and to
`+∞` (`np.inf`, modelled as `⊤ : EReal`) when `annual_return ≤ 0`; and for
`annual_return > 0` and positive `initial`, `target`, compounding for that
(real) number of years exactly reaches the target:
`initial·(1+annual_return)^years_to_target = target`. -/
theorem c7_years_to_target (o : PortfolioOptimizer) (initial target : ℝ)
    (weights : List (String × ℝ)) (years : ℕ) :
    (0 < (calculate_portfolio_metrics o weights).annual_return →
      (project_growth o initial target weights years).years_to_target
        = ((Real.log (target / initial)
            / Real.log (1 + (calculate_portfolio_metrics o weights).annual_return)
            : ℝ) : EReal))
    ∧ ((calculate_portfolio_metrics o weights).annual_return ≤ 0 →
      (project_growth o initial target weights years).years_to_target = ⊤)
    ∧ (∀ r : ℝ, r = (calculate_portfolio_metrics o weights).annual_return →
        0 < r → 0 < initial → 0 < target →
        initial * (1 + r) ^ (Real.log (target / initial) / Real.log (1 + r))
          = target) := by
  have hyt : (project_growth o initial target weights years).years_to_target
      = (if 0 < (calculate_portfolio_metrics o weights).annual_return
         then ((Real.log (target / initial)
            / Real.log (1 + (calculate_portfolio_metrics o weights).annual_return)
            : ℝ) : EReal)
         else ⊤) := rfl
  refine ⟨?_, ?_, ?_⟩
  · intro h
    rw [hyt, if_pos h]
  · intro h
    rw [hyt, if_neg (not_lt.mpr h)]
  · intro r _ hrpos hi ht2
    have h1r : (0 : ℝ) < 1 + r := by linarith
    have hlog : Real.log (1 + r) ≠ 0 := ne_of_gt (Real.log_pos (by linarith))
    rw [Real.rpow_def_of_pos h1r, mul_comm (Real.log (1 + r)) _,
      div_mul_cancel₀ _ hlog, Real.exp_log (div_pos ht2 hi)]
    field_simp

/-- Witness for `c7_years_to_target` at `oConst` (annual return exactly 1),
`initial = 1`, `target = 2`: years-to-target is `log 2 / log 2` and
compounding for that long reaches the target exactly. -/
theorem c7_years_to_target_witness :
    0 < (calculate_portfolio_metrics oConst [("A", (1 : ℝ))]).annual_return
    ∧ (project_growth oConst 1 2 [("A", (1 : ℝ))] 10).years_to_target
        = ((Real.log (2 / 1)
            / Real.log (1 + (calculate_portfolio_metrics oConst
                [("A", (1 : ℝ))]).annual_return) : ℝ) : EReal)
    ∧ 1 * (1 + (calculate_portfolio_metrics oConst
          [("A", (1 : ℝ))]).annual_return)
        ^ (Real.log (2 / 1)
            / Real.log (1 + (calculate_portfolio_metrics oConst
                [("A", (1 : ℝ))]).annual_return)) = 2 := by
  have har := annual_return_oConst
  have hpos : 0 < (calculate_portfolio_metrics oConst
      [("A", (1 : ℝ))]).annual_return := by
    rw [har]
    norm_num
  have h := c7_years_to_target oConst 1 2 [("A", (1 : ℝ))] 10
  exact ⟨hpos, h.1 hpos, h.2.2 _ rfl hpos one_pos (by norm_num)⟩

lemma covMatrix_dfConst_zero (i j : Fin dfConst.n) : covMatrix dfConst i j = 0 := by
  have h1 : (i : ℕ) < 1 := i.2
  have h2 : (j : ℕ) < 1 := j.2
  show 252 * dfConst.sampleCov ↑i ↑j = 0
  rw [show (i : ℕ) = 0 from by omega, show (j : ℕ) = 0 from by omega]
  have hcm : dfConst.colMean 0 = 1 / 252 := by
    unfold ReturnsDf.colMean
    rw [show dfConst.colList 0 = [1/252, 1/252] from rfl,
      show ((dfConst.T : ℕ) : ℝ) = 2 from by
        show ((2 : ℕ) : ℝ) = 2
        norm_num]
    norm_num
  unfold ReturnsDf.sampleCov
  rw [show dfConst.T = 2 from rfl, Finset.sum_range_succ, Finset.sum_range_one,
    show dfConst.entry 0 0 = 1/252 from rfl,
    show dfConst.entry 1 0 = 1/252 from rfl, hcm]
  norm_num

lemma vol_oConst_zero :
    (calculate_portfolio_metrics oConst [("A", (1 : ℝ))]).annual_volatility = 0 := by
  have hmv : (covMatrix dfConst).mulVec (wvec dfConst [("A", (1 : ℝ))])
      = fun _ => 0 := by
    funext i
    unfold Matrix.mulVec Matrix.dotProduct
    apply Finset.sum_eq_zero
    intro j _
    show dfConst.covMatrix i j * wvec dfConst [("A", (1 : ℝ))] j = 0
    rw [covMatrix_dfConst_zero i j, zero_mul]
  have h0 : (calculate_portfolio_metrics oConst [("A", (1 : ℝ))]).annual_volatility
      = Real.sqrt (wvec dfConst [("A", (1 : ℝ))]
          ⬝ᵥ (covMatrix dfConst).mulVec (wvec dfConst [("A", (1 : ℝ))])) := rfl
  rw [h0, hmv]
  simp [Matrix.dotProduct]

/-- **C8**.  Whenever the portfolio volatility `sqrt(w·Cov·w)` reported by
`calculate_portfolio_metrics` is 0, the Sharpe ratio it returns is 0 — the
`if portfolio_vol > 0 else 0` guard, rather than a division error or an
infinite value. -/
theorem c8_zero_vol_sharpe (o : PortfolioOptimizer) (weights : List (String × ℝ))
    (h : (calculate_portfolio_metrics o weights).annual_volatility = 0) :
    (calculate_portfolio_metrics o weights).sharpe = 0 := by
  rw [sharpe_eq, if_neg]
  rw [h]
  exact lt_irrefl 0

/-- Witness for `c8_zero_vol_sharpe`: on `oConst` (one asset of constant
returns, hence zero variance) with full weight on that asset, the reported
volatility is 0 and the reported Sharpe ratio is 0. -/
theorem c8_zero_vol_sharpe_witness :
    (calculate_portfolio_metrics oConst [("A", (1 : ℝ))]).annual_volatility = 0
    ∧ (calculate_portfolio_metrics oConst [("A", (1 : ℝ))]).sharpe = 0 :=
  ⟨vol_oConst_zero, c8_zero_vol_sharpe oConst [("A", (1 : ℝ))] vol_oConst_zero⟩

lemma metricsRow_keys (o : PortfolioOptimizer) (name : String)
    (w : List (String × ℝ)) :
    (metricsRow o name w).map Prod.fst
      = ["Strategy", "Annual Return", "Annual Volatility", "Sharpe Ratio",
         "Max Drawdown", "Return/Vol"] := rfl

lemma drawHalf_accepted :
    ∃ d ∈ ([drawHalf] : List (Fin oSingle.returns.n → ℝ)),
      ∃ s, (drawScore oSingle d).1 = some s ∧ (⊥ : EReal) < s := by
  have hsum : 0 < ∑ i, drawHalf i := by
    rw [sum_fin_one n_dfSingle]
    norm_num [drawHalf]
  exact ⟨drawHalf, List.mem_singleton_self _,
    single_draw_accepted oSingle validDf_dfSingle "A" rfl drawHalf hsum⟩

/-- **C9** (amended).  Whenever `maximum_sharpe` succeeds — some draw's
score beats the initial `-inf`; otherwise the source raises `TypeError`
inside it and no table is produced — `compare_all_strategies` returns one
row per strategy, six rows in the order Equal Weight, Risk Parity, Minimum
Variance, Maximum Sharpe, Momentum Weighted, Kelly Criterion; each row's
columns are exactly `Strategy`, `Annual Return`, `Annual Volatility`,
`Sharpe Ratio`, `Max Drawdown`, `Return/Vol` — in particular no row carries
a years-to-target or final-projected-value column (the claim's last two
columns do not exist; see `c9_counterexample`). -/
theorem c9_compare_all_strategies (o : PortfolioOptimizer)
    (P : Matrix (Fin o.returns.n) (Fin o.returns.n) ℝ)
    (draws : List (Fin o.returns.n → ℝ))
    (hacc : ∃ d ∈ draws, ∃ s, (drawScore o d).1 = some s ∧ (⊥ : EReal) < s) :
    ∃ rows, compare_all_strategies o P draws = some rows
      ∧ rows.length = 6
      ∧ (∀ row ∈ rows, row.map Prod.fst
          = ["Strategy", "Annual Return", "Annual Volatility", "Sharpe Ratio",
             "Max Drawdown", "Return/Vol"])
      ∧ rows.map (fun row => row.lookup ("Strategy"))
          = [some (CellVal.txt ("Equal Weight")),
             some (CellVal.txt ("Risk Parity")),
             some (CellVal.txt ("Minimum Variance")),
             some (CellVal.txt ("Maximum Sharpe")),
             some (CellVal.txt ("Momentum Weighted")),
             some (CellVal.txt ("Kelly Criterion"))]
      ∧ (∀ row ∈ rows, ¬ ("Years to Target") ∈ row.map Prod.fst) := by
  obtain ⟨d, hd, s, hs, hfold⟩ := maxSharpeFold_eq_some o draws hacc
  refine ⟨[metricsRow o ("Equal Weight") (equal_weight o.returns),
     metricsRow o ("Risk Parity") (risk_parity o.returns),
     metricsRow o ("Minimum Variance") (minimum_variance o.returns P),
     metricsRow o ("Maximum Sharpe") (mkWeightsF o.returns (drawScore o d).2),
     metricsRow o ("Momentum Weighted") (momentum_weighted o.returns 90),
     metricsRow o ("Kelly Criterion") (kelly_criterion o.returns (0.25 : ℝ))],
    ?_, rfl, ?_, ?_, ?_⟩
  · unfold compare_all_strategies maximum_sharpe
    rw [hfold, Option.map_some', Option.map_some']
  · intro row hrow
    simp only [List.mem_cons, List.not_mem_nil, or_false] at hrow
    rcases hrow with rfl | rfl | rfl | rfl | rfl | rfl
    all_goals rfl
  · simp [metricsRow, List.lookup]
  · intro row hrow
    simp only [List.mem_cons, List.not_mem_nil, or_false] at hrow
    rcases hrow with rfl | rfl | rfl | rfl | rfl | rfl
    all_goals rw [metricsRow_keys]
    all_goals decide

/-- **C9** counterexample: on the concrete optimizer `oSingle` (with the
exact pseudo-inverse `pinvSingle` and the single draw `drawHalf`, which the
positive single-asset variance makes score a finite sharpe) the comparison
succeeds, yet no row of the table has a `Years to Target` column — each row
holds only the six columns listed in `metricsRow`. -/
theorem c9_counterexample :
    ∃ rows, compare_all_strategies oSingle pinvSingle [drawHalf] = some rows
      ∧ ∀ row ∈ rows, ¬ ("Years to Target") ∈ row.map Prod.fst := by
  obtain ⟨d, hd, s, hs, hfold⟩ :=
    maxSharpeFold_eq_some oSingle [drawHalf] drawHalf_accepted
  refine ⟨[metricsRow oSingle ("Equal Weight") (equal_weight oSingle.returns),
     metricsRow oSingle ("Risk Parity") (risk_parity oSingle.returns),
     metricsRow oSingle ("Minimum Variance")
       (minimum_variance oSingle.returns pinvSingle),
     metricsRow oSingle ("Maximum Sharpe")
       (mkWeightsF oSingle.returns (drawScore oSingle d).2),
     metricsRow oSingle ("Momentum Weighted")
       (momentum_weighted oSingle.returns 90),
     metricsRow oSingle ("Kelly Criterion")
       (kelly_criterion oSingle.returns (0.25 : ℝ))],
    ?_, ?_⟩
  · unfold compare_all_strategies maximum_sharpe
    rw [hfold, Option.map_some', Option.map_some']
  · intro row hrow
    simp only [List.mem_cons, List.not_mem_nil, or_false] at hrow
    rcases hrow with rfl | rfl | rfl | rfl | rfl | rfl
    all_goals rw [metricsRow_keys]
    all_goals decide

/-- Witness for `c9_compare_all_strategies` at the concrete optimizer
`oSingle` with pseudo-inverse `pinvSingle` and one random draw, whose
finite score discharges the success hypothesis. -/
theorem c9_compare_all_strategies_witness :
    (∃ d ∈ ([drawHalf] : List (Fin oSingle.returns.n → ℝ)),
        ∃ s, (drawScore oSingle d).1 = some s ∧ (⊥ : EReal) < s)
    ∧ ∃ rows, compare_all_strategies oSingle pinvSingle [drawHalf] = some rows
      ∧ rows.length = 6
      ∧ (∀ row ∈ rows, row.map Prod.fst
          = ["Strategy", "Annual Return", "Annual Volatility", "Sharpe Ratio",
             "Max Drawdown", "Return/Vol"])
      ∧ rows.map (fun row => row.lookup ("Strategy"))
          = [some (CellVal.txt ("Equal Weight")),
             some (CellVal.txt ("Risk Parity")),
             some (CellVal.txt ("Minimum Variance")),
             some (CellVal.txt ("Maximum Sharpe")),
             some (CellVal.txt ("Momentum Weighted")),
             some (CellVal.txt ("Kelly Criterion"))]
      ∧ (∀ row ∈ rows, ¬ ("Years to Target") ∈ row.map Prod.fst) := by
  refine ⟨drawHalf_accepted, ?_⟩
  exact c9_compare_all_strategies oSingle pinvSingle [drawHalf] drawHalf_accepted

/-- **C10**.  `calculate_portfolio_metrics` reads the weight dict only
through `weights.get(stock, 0)` for the stocks of the return matrix: two
weight dicts agreeing on every column give identical metrics, a key that is
not a column is ignored, and the positional weight vector takes 0 for any
column absent from the dict. -/
theorem c10_partial_weights (o : PortfolioOptimizer) :
    (∀ w1 w2 : List (String × ℝ),
      (∀ c ∈ o.returns.cols, w1.lookup c = w2.lookup c) →
      calculate_portfolio_metrics o w1 = calculate_portfolio_metrics o w2)
    ∧ (∀ (w : List (String × ℝ)) (k : String) (x : ℝ), ¬ k ∈ o.returns.cols →
        calculate_portfolio_metrics o ((k, x) :: w)
          = calculate_portfolio_metrics o w)
    ∧ (∀ (w : List (String × ℝ)) (i : Fin o.returns.n),
        wvec o.returns w i = (w.lookup (o.returns.cols.get i)).getD 0) := by
  have key : ∀ w1 w2 : List (String × ℝ),
      (∀ c ∈ o.returns.cols, w1.lookup c = w2.lookup c) →
      calculate_portfolio_metrics o w1 = calculate_portfolio_metrics o w2 := by
    intro w1 w2 hagree
    have hw : wvec o.returns w1 = wvec o.returns w2 := by
      funext i
      unfold wvec
      rw [hagree _ (List.get_mem _ _ _)]
    simp only [calculate_portfolio_metrics]
    rw [hw]
  refine ⟨key, ?_, fun w i => rfl⟩
  intro w k x hk
  apply key
  intro c hc
  have hck : (c == k) = false := beq_eq_false_iff_ne.mpr (fun h => hk (h ▸ hc))
  simp [List.lookup, hck]

/-- Witness for `c10_partial_weights` on `oGain` (columns `["A"]`): adding
the weight of an unknown ticker `B`, or dropping an entry for it, leaves
the metrics unchanged. -/
theorem c10_partial_weights_witness :
    (∀ c ∈ oGain.returns.cols,
      List.lookup c [("A", (1 : ℝ)), ("B", 2)] = List.lookup c [("A", (1 : ℝ))])
    ∧ calculate_portfolio_metrics oGain [("A", (1 : ℝ)), ("B", 2)]
        = calculate_portfolio_metrics oGain [("A", (1 : ℝ))]
    ∧ ¬ ("B") ∈ oGain.returns.cols
    ∧ calculate_portfolio_metrics oGain (("B", (5 : ℝ)) :: [("A", (1 : ℝ))])
        = calculate_portfolio_metrics oGain [("A", (1 : ℝ))] := by
  have h := c10_partial_weights oGain
  have hagree : ∀ c ∈ oGain.returns.cols,
      List.lookup c [("A", (1 : ℝ)), ("B", 2)]
        = List.lookup c [("A", (1 : ℝ))] := by
    intro c hc
    have hcA : c = "A" := List.mem_singleton.mp hc
    subst hcA
    simp [List.lookup]
  have hB : ¬ ("B") ∈ oGain.returns.cols := by decide
  exact ⟨hagree, h.1 _ _ hagree, hB, h.2.1 _ ("B") 5 hB⟩

lemma list_sum_eq_range (l : List ℝ) :
    l.sum = ∑ t in Finset.range l.length, l.getD t 0 := by
  induction l with
  | nil => simp
  | cons x xs ih =>
      rw [List.sum_cons, ih, List.length_cons, Finset.sum_range_succ']
      simp only [List.getD_cons_succ, List.getD_cons_zero]
      exact add_comm x _

lemma list_drop_sum (l : List ℝ) (k : ℕ) :
    (l.drop k).sum = ∑ t in Finset.Ico k l.length, l.getD t 0 := by
  rw [list_sum_eq_range, List.length_drop]
  rcases le_or_lt k l.length with hk | hk
  · rw [Finset.sum_Ico_eq_sum_range]
    apply Finset.sum_congr rfl
    intro i _
    rw [List.getD_eq_getElem?_getD, List.getD_eq_getElem?_getD,
      List.getElem?_drop]
  · rw [Nat.sub_eq_zero_of_le hk.le, Finset.range_zero, Finset.sum_empty,
      Finset.Ico_eq_empty (not_lt.mpr hk.le), Finset.sum_empty]

lemma colList_getD (df : ReturnsDf) (i t : ℕ) :
    (df.colList i).getD t 0 = df.entry t i := by
  unfold ReturnsDf.colList ReturnsDf.entry
  rw [List.getD_eq_getElem?_getD, List.getElem?_map]
  rcases lt_or_ge t df.rows.length with ht | ht
  · rw [List.getElem?_eq_getElem ht]
    have h1 : df.rows.getD t [] = df.rows[t] := by
      rw [List.getD_eq_getElem?_getD, List.getElem?_eq_getElem ht]
      rfl
    rw [h1]
    rfl
  · rw [List.getElem?_eq_none (by simpa using ht)]
    have h1 : df.rows.getD t [] = [] := by
      rw [List.getD_eq_getElem?_getD, List.getElem?_eq_none (by simpa using ht)]
      rfl
    rw [h1]
    rfl

lemma colList_length (df : ReturnsDf) (i : ℕ) :
    (df.colList i).length = df.T := List.length_map _ _

/-- **C5**.  `momentum_weighted` scores each asset by the sum of its returns
over the trailing `lookback` rows (`self.returns.tail(lookback_days).sum()`,
i.e. rows `T - lookback, …, T - 1`); when no score is strictly positive the
result is exactly `equal_weight`, and otherwise each asset with positive
score gets weight proportional to its score among the positive scores while
every other asset gets weight 0. -/
theorem c5_momentum_weighted (df : ReturnsDf) (hv : ValidDf df) (lb : ℕ) :
    (∀ i : Fin df.n,
      ((df.colList i).drop (df.T - lb)).sum
        = ∑ t in Finset.Ico (df.T - lb) df.T, df.entry t i)
    ∧ ((∀ i : Fin df.n, ¬ 0 < ((df.colList i).drop (df.T - lb)).sum) →
        momentum_weighted df lb = equal_weight df)
    ∧ ((∃ j : Fin df.n, 0 < ((df.colList j).drop (df.T - lb)).sum) →
        ∀ i : Fin df.n,
          (momentum_weighted df lb).lookup (df.cols.get i)
            = some ((if 0 < ((df.colList i).drop (df.T - lb)).sum
                then ((df.colList i).drop (df.T - lb)).sum else 0)
              / ∑ j : Fin df.n,
                  (if 0 < ((df.colList j).drop (df.T - lb)).sum
                   then ((df.colList j).drop (df.T - lb)).sum else 0))) := by
  refine ⟨?_, ?_, ?_⟩
  · intro i
    rw [list_drop_sum, colList_length]
    exact Finset.sum_congr rfl (fun t _ => colList_getD df i t)
  · intro h
    apply momentum_weighted_eq_fallback
    rw [Finset.card_eq_zero, Finset.filter_eq_empty_iff]
    intro i _
    exact h i
  · rintro ⟨j, hj⟩ i
    have hcard : (Finset.univ.filter
        (fun i : Fin df.n =>
          0 < ((df.colList i).drop (df.T - lb)).sum)).card ≠ 0 := by
      rw [Ne, Finset.card_eq_zero, Finset.filter_eq_empty_iff]
      intro hall
      exact hall (Finset.mem_univ j) hj
    rw [momentum_weighted_eq_pos df lb hcard]
    exact lookup_mkWeightsF df _ hv.nodup i

/-- Witness for `c5_momentum_weighted` at `dfGain` with the default
lookback 90: the single asset's trailing-window score is its summed
returns, and its always-positive momentum gives it the full weight. -/
theorem c5_momentum_weighted_witness :
    ValidDf dfGain
    ∧ ((dfGain.colList 0).drop (dfGain.T - 90)).sum
        = ∑ t in Finset.Ico (dfGain.T - 90) dfGain.T, dfGain.entry t 0
    ∧ (momentum_weighted dfGain 90).lookup (dfGain.cols.get ⟨0, Nat.one_pos⟩)
        = some ((if 0 < ((dfGain.colList 0).drop (dfGain.T - 90)).sum
            then ((dfGain.colList 0).drop (dfGain.T - 90)).sum else 0)
          / ∑ j : Fin dfGain.n,
              (if 0 < ((dfGain.colList j).drop (dfGain.T - 90)).sum
               then ((dfGain.colList j).drop (dfGain.T - 90)).sum else 0)) := by
  have hv := validDf_dfGain
  have h := c5_momentum_weighted dfGain hv 90
  have hpos : 0 < ((dfGain.colList 0).drop (dfGain.T - 90)).sum := by
    rw [show dfGain.T - 90 = 0 from rfl, List.drop_zero,
      show dfGain.colList 0 = [1/100, 1/50] from rfl]
    norm_num
  exact ⟨hv, h.1 ⟨0, Nat.one_pos⟩,
    h.2.2 ⟨⟨0, Nat.one_pos⟩, hpos⟩ ⟨0, Nat.one_pos⟩⟩

/-- Witness for `c4_kelly_criterion` at the concrete valid frame `dfGain`
with the default `max_allocation = 0.25`. -/
theorem c4_kelly_criterion_witness :
    ValidDf dfGain
    ∧ (¬ 0 < (∑ i : Fin dfGain.n, rawKelly (dfGain.colList i) (0.25 : ℝ)) →
        kelly_criterion dfGain (0.25 : ℝ) = equal_weight dfGain)
    ∧ (0 ≤ ∑ i : Fin dfGain.n, rawKelly (dfGain.colList i) (0.25 : ℝ)) := by
  have hv := validDf_dfGain
  have h := c4_kelly_criterion dfGain hv (0.25 : ℝ)
  exact ⟨hv, h.2.2.2.2.2.1, h.2.2.2.1⟩

end

end DecisionEngine
